import Mathlib

/-!
Verification of the retrieval-ranking-aggregation-formatting pipeline of the
WhoKnows documentation chatbot (`search_engine.py`, `summarizer.py`).

Strings are modelled as `List Char`; Python floats are modelled as rationals.
Each definition below transcribes the behaviour of the corresponding Python
function; regular-expression substitutions are modelled by explicit scanners
that implement the exact matching semantics of the patterns used by the code.
-/

namespace Chatbot

/-- Shorthand turning a Lean string literal into the `List Char` representation
used throughout this development. -/
def pys (s : String) : List Char := s.toList

/-- Python whitespace (the ASCII characters matched by `str.split()`, `str.strip()`
and the regex class `\s` on the inputs handled by this code base). -/
def isPySpace (c : Char) : Bool :=
  c = ' ' ∨ c = '\t' ∨ c = '\n' ∨ c = '\r' ∨ c = Char.ofNat 11 ∨ c = Char.ofNat 12

/-- Python `str.lower` (ASCII case mapping; the only non-ASCII characters in the
program are the fixed glyphs, which have no ASCII case). -/
def pyLower (s : List Char) : List Char := s.map Char.toLower

/-- Python `str.title` (ASCII): upper-case a letter that follows a non-letter,
lower-case a letter that follows a letter. -/
def pyTitleGo (prevAlpha : Bool) : List Char → List Char
  | [] => []
  | c :: rest =>
      (if c.isAlpha then (if prevAlpha then c.toLower else c.toUpper) else c) ::
        pyTitleGo c.isAlpha rest

/-- Python `str.title`. -/
def pyTitleCase (s : List Char) : List Char := pyTitleGo false s

/-- Python substring containment `needle in hay`. -/
def inStr (needle hay : List Char) : Prop := needle <:+: hay

instance (needle hay : List Char) : Decidable (inStr needle hay) :=
  List.decidableInfix needle hay

/-- Python `str.split()` with no argument: split on whitespace runs, no empty parts. -/
def pySplit (s : List Char) : List (List Char) :=
  (List.splitOnP isPySpace s).filter (fun w => w ≠ [])

/-- Python `str.strip()`: drop leading and trailing whitespace. -/
def pyStrip (s : List Char) : List Char :=
  ((s.dropWhile isPySpace).reverse.dropWhile isPySpace).reverse

/-- Python `str.replace(pat, rep)` (left-to-right, non-overlapping), written with
a structural fuel equal to the input length so that it evaluates by `decide`.
The patterns used by the code are never empty. -/
def strReplaceGo (pat rep : List Char) : Nat → List Char → List Char
  | _, [] => []
  | 0, s => s
  | fuel + 1, c :: rest =>
      if pat ≠ [] ∧ pat.isPrefixOf (c :: rest) then
        rep ++ strReplaceGo pat rep fuel (List.drop pat.length (c :: rest))
      else c :: strReplaceGo pat rep fuel rest

/-- Python `s.replace(pat, rep)`. -/
def strReplace (s pat rep : List Char) : List Char := strReplaceGo pat rep s.length s

/-- Python `s.split(sep)` for a non-empty separator string (keeps empty parts). -/
def pySplitStrGo (sep : List Char) : Nat → List Char → List Char → List (List Char)
  | _, acc, [] => [acc.reverse]
  | 0, acc, s => [acc.reverse ++ s]
  | fuel + 1, acc, c :: rest =>
      if sep ≠ [] ∧ sep.isPrefixOf (c :: rest) then
        acc.reverse :: pySplitStrGo sep fuel [] (List.drop sep.length (c :: rest))
      else pySplitStrGo sep fuel (c :: acc) rest

/-- Python `s.split(sep)`. -/
def pySplitStr (s sep : List Char) : List (List Char) := pySplitStrGo sep s.length [] s

/-- Python `s.split(sep, 1)` for a single-character separator. -/
def splitOnceGo (sep : Char) (acc : List Char) : List Char → List (List Char)
  | [] => [acc.reverse]
  | c :: rest => if c = sep then [acc.reverse, rest] else splitOnceGo sep (c :: acc) rest

/-- Python `list[-1]` on a list of strings, defaulting to `[]` (never hit: Python
`split` always returns a non-empty list). -/
def lastOr (l : List (List Char)) : List Char := l.getLast?.getD []

/-- The corrupted bullet glyph `â€¢` that the source files contain in place of a
bullet (three characters U+00E2 U+20AC U+00A2). -/
def bulletGlyph : List Char := [Char.ofNat 0xE2, Char.ofNat 0x20AC, Char.ofNat 0xA2]

/-- The corrupted arrow glyph `â†’` used for citation lines
(U+00E2 U+2020 U+2019). -/
def arrowGlyph : List Char := [Char.ofNat 0xE2, Char.ofNat 0x2020, Char.ofNat 0x2019]

/-- The corrupted page glyph `ðŸ“„` used in the link-section header
(U+00F0 U+0178 U+201C U+201E). -/
def docGlyph : List Char :=
  [Char.ofNat 0xF0, Char.ofNat 0x178, Char.ofNat 0x201C, Char.ofNat 0x201E]

/-! ### Maximal-run representation of strings

`re.sub(r'\n{3,}', '\n\n', .)`, `re.sub(r' {2,}', ' ', .)` and
`re.sub(r'\*{3,}', '', .)` each rewrite every maximal run of one fixed
character.  We represent a string by its list of maximal runs and define the
three substitutions as pointwise maps on runs. -/

/-- Decompose a string into maximal runs `(character, length)`. -/
def toRuns : List Char → List (Char × Nat)
  | [] => []
  | c :: rest =>
      match toRuns rest with
      | (d, n) :: rs => if c = d then (d, n + 1) :: rs else (c, 1) :: (d, n) :: rs
      | [] => [(c, 1)]

/-- Rebuild a string from a list of runs. -/
def fromRuns (rs : List (Char × Nat)) : List Char :=
  rs.flatMap (fun r => List.replicate r.2 r.1)

/-- Model of `re.sub(r'\n{3,}', '\n\n', s)`: every maximal run of at least three
newlines becomes exactly two. -/
def subNewlines3 (s : List Char) : List Char :=
  fromRuns ((toRuns s).map (fun r => if r.1 = '\n' ∧ 3 ≤ r.2 then ('\n', 2) else r))

/-- Model of `re.sub(r' {2,}', ' ', s)`: every maximal run of at least two spaces
becomes one. -/
def subSpaces2 (s : List Char) : List Char :=
  fromRuns ((toRuns s).map (fun r => if r.1 = ' ' ∧ 2 ≤ r.2 then (' ', 1) else r))

/-- Model of `re.sub(r'\*{3,}', '', s)`: every maximal run of at least three
asterisks is removed. -/
def subStars3 (s : List Char) : List Char :=
  fromRuns ((toRuns s).map (fun r => if r.1 = '*' ∧ 3 ≤ r.2 then ('*', 0) else r))

/-! ### Line-anchored substitutions of `clean_text`

`re.sub(r'^#{1,6}\s+', '', text, flags=re.MULTILINE)` and
`re.sub(r'^[\-\*]\s+', 'â€¢ ', text, flags=re.MULTILINE)` are modelled by
character-level scanners.  A match consumes 1-6 hashes (resp. one `-`/`*`)
situated at a line start together with the maximal following whitespace run;
scanning resumes after the match, and the resumption point counts as a line
start exactly when the last consumed whitespace character was a newline. -/

inductive HeadScanState
  | lineStart
  | hashRun (n : Nat)
  | wsRun (sawNl : Bool)
  | mid

/-- Scanner for `re.sub(r'^#{1,6}\s+', '', text, flags=re.MULTILINE)`. -/
def subHeadersGo : HeadScanState → List Char → List Char
  | .lineStart, [] => []
  | .lineStart, c :: rest =>
      if c = '#' then subHeadersGo (.hashRun 1) rest
      else c :: subHeadersGo (if c = '\n' then .lineStart else .mid) rest
  | .hashRun n, [] => List.replicate n '#'
  | .hashRun n, c :: rest =>
      if c = '#' then subHeadersGo (.hashRun (n + 1)) rest
      else if isPySpace c ∧ n ≤ 6 then subHeadersGo (.wsRun (c = '\n')) rest
      else List.replicate n '#' ++ c :: subHeadersGo (if c = '\n' then .lineStart else .mid) rest
  | .wsRun _, [] => []
  | .wsRun sawNl, c :: rest =>
      if isPySpace c then subHeadersGo (.wsRun (c = '\n')) rest
      else if sawNl ∧ c = '#' then subHeadersGo (.hashRun 1) rest
      else c :: subHeadersGo .mid rest
  | .mid, [] => []
  | .mid, c :: rest => c :: subHeadersGo (if c = '\n' then .lineStart else .mid) rest

/-- Strip markdown headers: first step of `clean_text`. -/
def subHeaders (s : List Char) : List Char := subHeadersGo .lineStart s

inductive BulletScanState
  | lineStart
  | afterMarker (m : Char)
  | wsRun (sawNl : Bool)
  | mid

/-- Scanner for `re.sub(r'^[\-\*]\s+', 'â€¢ ', text, flags=re.MULTILINE)`. -/
def subBulletsGo : BulletScanState → List Char → List Char
  | .lineStart, [] => []
  | .lineStart, c :: rest =>
      if c = '-' ∨ c = '*' then subBulletsGo (.afterMarker c) rest
      else c :: subBulletsGo (if c = '\n' then .lineStart else .mid) rest
  | .afterMarker m, [] => [m]
  | .afterMarker m, c :: rest =>
      if isPySpace c then bulletGlyph ++ ' ' :: subBulletsGo (.wsRun (c = '\n')) rest
      else m :: c :: subBulletsGo .mid rest
  | .wsRun _, [] => []
  | .wsRun sawNl, c :: rest =>
      if isPySpace c then subBulletsGo (.wsRun (c = '\n')) rest
      else if sawNl ∧ (c = '-' ∨ c = '*') then subBulletsGo (.afterMarker c) rest
      else c :: subBulletsGo .mid rest
  | .mid, [] => []
  | .mid, c :: rest => c :: subBulletsGo (if c = '\n' then .lineStart else .mid) rest

/-- Normalize bullet markers: third step of `clean_text`. -/
def subBullets (s : List Char) : List Char := subBulletsGo .lineStart s

/-- `ContentExtractor.clean_text`. -/
def clean_text (text : List Char) : List Char :=
  let t := subHeaders text
  let t := subStars3 t
  let t := subBullets t
  let t := strReplace t (pys "\\n") (pys "\n")
  let t := strReplace t (pys "\\t") (pys " ")
  let t := strReplace t (pys "\\") []
  let t := subNewlines3 t
  let t := subSpaces2 t
  pyStrip t

/-! ### QueryAnalyzer -/

inductive QueryType
  | PERSON
  | TECHNOLOGY
  | PROCESS
  | ARCHITECTURE
  | GENERAL
deriving DecidableEq

/-- The `.value` string of each `QueryType` enum member. -/
def QueryType.value : QueryType → List Char
  | .PERSON => pys "person"
  | .TECHNOLOGY => pys "technology"
  | .PROCESS => pys "process"
  | .ARCHITECTURE => pys "architecture"
  | .GENERAL => pys "general"

def person_indicators : List (List Char) :=
  [pys "who is", pys "who are", pys "responsibility", pys "responsibilities",
   pys "cto", pys "cio", pys "ceo", pys "manager", pys "lead", pys "team", pys "member"]

def tech_indicators : List (List Char) :=
  [pys "technology", pys "stack", pys "framework", pys "library", pys "tool",
   pys "language", pys "database", pys "api", pys "frontend", pys "backend",
   pys "ml", pys "machine learning", pys "ai", pys "model"]

def process_indicators : List (List Char) :=
  [pys "how to", pys "process", pys "procedure", pys "deploy", pys "build",
   pys "test", pys "release", pys "workflow", pys "pipeline"]

def architecture_indicators : List (List Char) :=
  [pys "architecture", pys "design", pys "structure", pys "component",
   pys "system", pys "integration", pys "pattern"]

def synonyms : List (List Char × List (List Char)) :=
  [(pys "ml", [pys "machine learning", pys "ai", pys "artificial intelligence", pys "deep learning"]),
   (pys "tech", [pys "technology", pys "technical"]),
   (pys "stack", [pys "technology stack", pys "tech stack", pys "technologies", pys "tools"]),
   (pys "cto", [pys "chief technology officer", pys "technology officer", pys "tech lead"]),
   (pys "cio", [pys "chief information officer", pys "information officer", pys "it lead"]),
   (pys "backend", [pys "back-end", pys "server", pys "api", pys "server-side"]),
   (pys "frontend", [pys "front-end", pys "ui", pys "interface", pys "client-side", pys "user interface"]),
   (pys "database", [pys "db", pys "storage", pys "data store", pys "persistence"]),
   (pys "deploy", [pys "deployment", pys "release", pys "rollout", pys "launch"]),
   (pys "test", [pys "testing", pys "qa", pys "quality assurance", pys "verification"])]

/-- Python `max(items, key=lambda x: x[1])` over a non-empty list given as head
and tail: keeps the earliest element whose value is maximal. -/
def pyMaxBySecond (hd : QueryType × Nat) (tl : List (QueryType × Nat)) : QueryType × Nat :=
  tl.foldl (fun best x => if best.2 < x.2 then x else best) hd

/-- `QueryAnalyzer._classify_query`. -/
def classify_query (query : List Char) : QueryType :=
  let ql := pyLower query
  let p := person_indicators.countP (fun i => decide (inStr i ql))
  let t := tech_indicators.countP (fun i => decide (inStr i ql))
  let r := process_indicators.countP (fun i => decide (inStr i ql))
  let a := architecture_indicators.countP (fun i => decide (inStr i ql))
  let max_score := max (max (max p t) r) a
  if max_score = 0 then QueryType.GENERAL
  else (pyMaxBySecond (QueryType.PERSON, p)
    [(QueryType.TECHNOLOGY, t), (QueryType.PROCESS, r), (QueryType.ARCHITECTURE, a)]).1

def stop_words : List (List Char) :=
  [pys "what", pys "is", pys "the", pys "a", pys "an", pys "are", pys "can",
   pys "you", pys "tell", pys "me", pys "about", pys "of"]

/-- `QueryAnalyzer._extract_key_terms`. -/
def extract_key_terms (query : List Char) : List (List Char) :=
  let words := pySplit (pyLower query)
  let key_terms := words.filter (fun w => decide (w ∉ stop_words ∧ 2 < w.length))
  let phrases :=
    (if inStr (pys "machine learning") query then [pys "machine learning"] else []) ++
    (if inStr (pys "technology stack") query ∨ inStr (pys "tech stack") query then
      [pys "technology stack"] else []) ++
    (if inStr (pys "chief technology officer") query then [pys "cto"] else []) ++
    (if inStr (pys "chief information officer") query then [pys "cio"] else [])
  key_terms ++ phrases

/-- `QueryAnalyzer._expand_terms`; Python's `list(set(expanded))` is modelled by
`List.dedup` (the claims only inspect membership, which is order-independent). -/
def expand_terms (terms : List (List Char)) : List (List Char) :=
  (terms.foldl (fun expanded term =>
    match List.lookup term synonyms with
    | some syns => expanded ++ syns
    | none => expanded) terms).dedup

structure Entities where
  people : List (List Char)
  technologies : List (List Char)
  roles : List (List Char)
deriving DecidableEq

/-- Python `word[0].isupper()`; `split()` never yields an empty word. -/
def headIsUpper : List Char → Bool
  | [] => false
  | c :: _ => c.isUpper

def question_words : List (List Char) :=
  [pys "what", pys "who", pys "how", pys "when", pys "where", pys "why"]

/-- The capitalized-pair person-name heuristic of `_extract_entities`. -/
def extract_people : List (List Char) → List (List Char)
  | w :: w' :: rest =>
      (if headIsUpper w ∧ pyLower w ∉ question_words ∧ headIsUpper w' then
        [w ++ ' ' :: w'] else []) ++ extract_people (w' :: rest)
  | _ => []

def role_vocab : List (List Char) :=
  [pys "cto", pys "cio", pys "ceo", pys "manager", pys "lead", pys "developer", pys "engineer"]

def tech_vocab : List (List Char) :=
  [pys "python", pys "javascript", pys "react", pys "node", pys "docker", pys "kubernetes",
   pys "aws", pys "azure", pys "gcp", pys "mongodb", pys "postgresql", pys "redis"]

/-- `QueryAnalyzer._extract_entities`. -/
def extract_entities (query : List Char) : Entities :=
  let words := pySplit query
  let people := extract_people words
  let ql := pyLower query
  let roles := role_vocab.filter (fun r => decide (inStr r ql))
  let technologies := tech_vocab.filter (fun t => decide (inStr t ql))
  { people := people, technologies := technologies, roles := roles }

structure QueryAnalysis where
  original_query : List Char
  query_type : QueryType
  key_terms : List (List Char)
  expanded_terms : List (List Char)
  entities : Entities
  is_question : Bool
deriving DecidableEq

/-- `QueryAnalyzer.analyze`. -/
def analyze (query : List Char) : QueryAnalysis :=
  let query_lower := pyLower query
  { original_query := query
    query_type := classify_query query_lower
    key_terms := extract_key_terms query_lower
    expanded_terms := expand_terms (extract_key_terms query_lower)
    entities := extract_entities query
    is_question := decide ((pyStrip query).getLast? = some '?') }

/-! ### SearchHit, re-ranking and aggregation -/

structure SearchHit where
  content : List Char
  document_title : List Char
  section_title : List Char
  document_path : List Char
  score : ℚ
  chunk_id : List Char
  highlights : List (List Char)
  context_before : Option (List Char) := none
  context_after : Option (List Char) := none
deriving DecidableEq

/-- The query-type-specific boost block of `SearchEngine._rerank_results`
applied to a running score `s`. -/
def typeBoost (qa : QueryAnalysis) (h : SearchHit) (s : ℚ) : ℚ :=
  match qa.query_type with
  | QueryType.PERSON =>
      let s := if ([pys "team", pys "people", pys "responsibilities"]).any
          (fun t => decide (inStr t (pyLower h.section_title))) then s * 2.0 else s
      if qa.entities.roles.any (fun role => decide (inStr role (pyLower h.content))) then
        s * 1.5 else s
  | QueryType.TECHNOLOGY =>
      let s :=
        if inStr (pys "technology stack") (pyLower h.document_title) then
          let s := s * 3.0
          if inStr (pys "machine learning") (pyLower qa.original_query) then
            if inStr (pys "machine learning stack") (pyLower h.section_title) then s * 5.0
            else if inStr (pys "embedding") (pyLower h.section_title) ∨
                inStr (pys "vector") (pyLower h.section_title) then s * 3.0
            else if inStr (pys "language model") (pyLower h.section_title) then s * 3.0
            else s
          else s
        else s
      let s := if qa.entities.technologies.any
          (fun tech => decide (inStr tech (pyLower h.content))) then s * 1.5 else s
      if inStr (pys "learning resources") (pyLower h.section_title) ∨
          inStr (pys "professional development") (pyLower h.section_title) then s * 0.1 else s
  | QueryType.PROCESS =>
      if ([pys "process", pys "workflow", pys "deployment"]).any
          (fun t => decide (inStr t (pyLower h.section_title))) then s * 1.8 else s
  | _ => s

/-- One iteration of the per-key-term title-match loop of `_rerank_results`. -/
def titleTermStep (h : SearchHit) (s : ℚ) (term : List Char) : ℚ :=
  let s := if 3 < term.length ∧ inStr (pyLower term) (pyLower h.section_title) then
    s * 1.5 else s
  if 3 < term.length ∧ inStr (pyLower term) (pyLower h.document_title) then
    s * 1.3 else s

/-- The per-key-term title-match boosts of `_rerank_results` (a loop multiplying
the running score once per matching term). -/
def titleTermBoost (key_terms : List (List Char)) (h : SearchHit) (s : ℚ) : ℚ :=
  key_terms.foldl (titleTermStep h) s

/-- The universal (query-type independent) boost block of `_rerank_results`. -/
def universalBoost (qa : QueryAnalysis) (h : SearchHit) (s : ℚ) : ℚ :=
  let query_lower := pyLower qa.original_query
  let s :=
    if inStr (pys "machine learning") query_lower ∧
        inStr (pys "machine learning stack") (pyLower h.section_title) then s * 10.0
    else if inStr query_lower (pyLower h.content) then s * 2.5
    else s
  titleTermBoost qa.key_terms h s

/-- The final score `_rerank_results` assigns to one hit. -/
def rerankHitScore (qa : QueryAnalysis) (h : SearchHit) : ℚ :=
  universalBoost qa h (typeBoost qa h h.score)

/-- Python's stable `list.sort(key=lambda x: x.score, reverse=True)`. -/
def sortByScoreDesc (l : List SearchHit) : List SearchHit :=
  l.mergeSort (fun a b => decide (b.score ≤ a.score))

/-- `SearchEngine._rerank_results`. -/
def rerank_results (results : List SearchHit) (qa : QueryAnalysis) : List SearchHit :=
  sortByScoreDesc (results.map (fun h => { h with score := rerankHitScore qa h }))

/-- One step of the insertion-ordered `doc_groups` dictionary of
`_aggregate_results`. -/
def addToGroups (groups : List (List Char × List SearchHit)) (h : SearchHit) :
    List (List Char × List SearchHit) :=
  if groups.any (fun g => g.1 = h.document_title) then
    groups.map (fun g => if g.1 = h.document_title then (g.1, g.2 ++ [h]) else g)
  else groups ++ [(h.document_title, [h])]

/-- The `doc_groups` dictionary of `_aggregate_results` (insertion-ordered,
values in order of appearance). -/
def groupByDocument (results : List SearchHit) : List (List Char × List SearchHit) :=
  results.foldl addToGroups []

/-- `SearchEngine._aggregate_results`. -/
def aggregate_results (results : List SearchHit) : List SearchHit :=
  let doc_groups := groupByDocument results
  let final_results := doc_groups.foldl (fun acc g =>
    let doc_limit := if doc_groups.length = 1 then 3 else 2
    acc ++ (sortByScoreDesc g.2).take doc_limit) []
  (sortByScoreDesc final_results).take 5

/-! ### Confidence -/

/-- Python `round(x, 2)` modelled on rationals (round half to even at two
decimal places). -/
def pyRound2 (q : ℚ) : ℚ :=
  ((if q * 100 - ⌊q * 100⌋ < 1 / 2 then ⌊q * 100⌋
    else if 1 / 2 < q * 100 - ⌊q * 100⌋ then ⌊q * 100⌋ + 1
    else if ⌊q * 100⌋ % 2 = 0 then ⌊q * 100⌋ else ⌊q * 100⌋ + 1 : ℤ) : ℚ) / 100

structure Confidence where
  level : List Char
  score : ℚ
  explanation : List Char
  factors : Option (List (List Char)) := none
deriving DecidableEq

/-- The `confidence_level` local assigned by the threshold chain of
`_calculate_confidence`. -/
def confidence_level_of (top_score : ℚ) : List Char :=
  if 2.0 < top_score then pys "high"
  else if 1.0 < top_score then pys "medium"
  else if 0.5 < top_score then pys "low"
  else pys "very_low"

/-- The `confidence_score` local assigned by the threshold chain of
`_calculate_confidence`. -/
def confidence_score_of (top_score : ℚ) : ℚ :=
  if 2.0 < top_score then min 0.95 (top_score / 3.0)
  else if 1.0 < top_score then 0.6 + (top_score - 1.0) * 0.2
  else if 0.5 < top_score then 0.3 + (top_score - 0.5) * 0.4
  else max 0.1 (top_score * 0.4)

/-- The `explanation` local assigned by the threshold chain of
`_calculate_confidence`. -/
def confidence_explanation_of (top_score : ℚ) : List Char :=
  if 2.0 < top_score then pys "Found highly relevant information"
  else if 1.0 < top_score then pys "Found relevant information"
  else if 0.5 < top_score then pys "Found partially relevant information"
  else pys "Results may not fully answer your question"

/-- `SearchEngine._calculate_confidence` on a list of hits (the only shapes the
pipeline passes it are hit lists; the `isinstance(..., dict)` branch that reads
a 'relevance' key is unreachable from the modelled call sites). -/
def calculate_confidence (results : List SearchHit) : Confidence :=
  match results with
  | [] => { level := pys "low", score := 0, explanation := pys "No matching documents found" }
  | top :: rest =>
    let cs := confidence_score_of top.score
    let boosted : ℚ × List (List Char) :=
      match rest with
      | second :: _ =>
          if 1.0 < second.score then (min 1.0 (cs + 0.1), [pys "multiple sources"])
          else (cs, [])
      | [] => (cs, [])
    { level := confidence_level_of top.score
      score := pyRound2 boosted.1
      explanation := confidence_explanation_of top.score
      factors := some (boosted.2 ++ [pys "direct match"]) }

/-! ### ContentExtractor: structured content and display formatting -/

structure StructuredContent where
  lists : List (List (List Char))
  key_values : List (List Char × List Char)
  sections : List (List Char)
  code_blocks : List (List Char) := []
deriving DecidableEq

/-- Insertion-ordered dictionary update used for `structured['key_values']`:
an existing key keeps its position and gets the new value (Python dict
semantics), a new key is appended. -/
def kvInsert (kvs : List (List Char × List Char)) (k v : List Char) :
    List (List Char × List Char) :=
  if kvs.any (fun p => p.1 = k) then kvs.map (fun p => if p.1 = k then (k, v) else p)
  else kvs ++ [(k, v)]

/-- Python `.replace('**', '').replace('*', '')` applied to keys and values. -/
def stripStars (s : List Char) : List Char :=
  strReplace (strReplace s (pys "**") []) (pys "*") []

/-- One line of the `extract_structured_content` loop; the state is the
structure built so far together with the currently open bullet list. -/
def structStep (st : StructuredContent × List (List Char)) (rawLine : List Char) :
    StructuredContent × List (List Char) :=
  let structured := st.1
  let current_list := st.2
  let line := pyStrip rawLine
  let structured :=
    if inStr [':'] line ∧ ¬ (pys "-").isPrefixOf line then
      match splitOnceGo ':' [] line with
      | [p0, p1] =>
          let key := stripStars (pyStrip p0)
          let value := stripStars (pyStrip p1)
          if key ≠ [] ∧ value ≠ [] then
            { structured with key_values := kvInsert structured.key_values key value }
          else structured
      | _ => structured
    else structured
  let isBullet := (pys "- ").isPrefixOf line ∨ (bulletGlyph ++ [' ']).isPrefixOf line ∨
    (pys "* ").isPrefixOf line
  let flushed : StructuredContent × List (List Char) :=
    if isBullet then (structured, current_list ++ [pyStrip (line.drop 2)])
    else if current_list ≠ [] then
      ({ structured with lists := structured.lists ++ [current_list] }, [])
    else (structured, current_list)
  let structured := flushed.1
  let current_list := flushed.2
  let structured :=
    if (pys "###").isPrefixOf line then
      { structured with sections := structured.sections ++ [pyStrip (strReplace line (pys "#") [])] }
    else structured
  (structured, current_list)

/-- `ContentExtractor.extract_structured_content`. -/
def extract_structured_content (content : List Char) : StructuredContent :=
  let init : StructuredContent × List (List Char) :=
    ({ lists := [], key_values := [], sections := [], code_blocks := [] }, [])
  let final := (content.splitOn '\n').foldl structStep init
  if final.2 ≠ [] then { final.1 with lists := final.1.lists ++ [final.2] } else final.1

/-- `ContentExtractor.format_for_display`. -/
def format_for_display (hit : SearchHit) (qa : QueryAnalysis) (max_length : Nat) : List Char :=
  let clean_content := clean_text hit.content
  let formatted_parts : List (List Char) :=
    if hit.section_title ≠ [] then [pys "**" ++ clean_text hit.section_title ++ pys "**\n"]
    else []
  let structured := extract_structured_content clean_content
  let formatted_parts :=
    if qa.query_type = QueryType.TECHNOLOGY then
      let formatted_parts := formatted_parts ++
        (structured.key_values.take 4).map (fun kv =>
          clean_text kv.1 ++ pys ": " ++ (clean_text kv.2).take 100)
      formatted_parts ++
        (structured.lists.take 1).flatMap (fun lst =>
          if lst.length ≤ 5 then
            (lst.take 3).map (fun item => bulletGlyph ++ ' ' :: (clean_text item).take 100)
          else [])
    else
      let formatted_parts := formatted_parts ++
        (hit.highlights.take 3).map (fun hl => bulletGlyph ++ ' ' :: clean_text hl)
      let relevant_keys := structured.key_values.filterMap (fun kv =>
        if qa.key_terms.any (fun term => decide (2 < term.length ∧ inStr term (pyLower kv.1))) then
          some (clean_text kv.1 ++ pys ": " ++ (clean_text kv.2).take 100)
        else none)
      formatted_parts ++ relevant_keys.take 2
  let formatted_parts :=
    if formatted_parts.length ≤ 1 then
      let excerpt := clean_content.take 500
      let excerpt := if excerpt.length < clean_content.length then excerpt ++ pys "..."
        else excerpt
      formatted_parts ++ [excerpt]
    else formatted_parts
  let result := List.intercalate (pys "\n") formatted_parts
  if max_length < result.length then result.take (max_length - 3) ++ pys "..." else result

/-! ### Response formatting -/

structure SourceRef where
  type : List Char
  title : List Char
  path : List Char
  relevance : ℚ
  link : List Char
deriving DecidableEq

structure QAOut where
  type : List Char
  key_terms : List (List Char)
deriving DecidableEq

/-- The response envelope; keys the Python dict omits on some paths are
`Option` fields set to `none` there. -/
structure Response where
  message : List Char
  sources : List SourceRef
  query_analysis : QAOut
  summary_mode : Option (List Char) := none
  confidence : Option Confidence := none
deriving DecidableEq

/-- `SearchEngine._generate_response_title`. -/
def generate_response_title (qa : QueryAnalysis) : List Char :=
  let query := qa.original_query
  match qa.query_type with
  | QueryType.PERSON =>
      match qa.entities.people with
      | person :: _ => pys "## " ++ person
      | [] =>
          if inStr (pys "cto") (pyLower query) then pys "## Chief Technology Officer (CTO)"
          else if inStr (pys "cio") (pyLower query) then pys "## Chief Information Officer (CIO)"
          else pys "## Team Information"
  | QueryType.TECHNOLOGY =>
      if inStr (pys "stack") (pyLower query) then pys "## Technology Stack"
      else
        match qa.entities.technologies with
        | tech :: _ => pys "## " ++ pyTitleCase tech ++ pys " Information"
        | [] => pys "## Technical Information"
  | QueryType.PROCESS => pys "## Process & Workflow"
  | QueryType.ARCHITECTURE => pys "## System Architecture"
  | QueryType.GENERAL =>
      if qa.is_question then pys "## Answer" else pys "## Information"

/-- `SearchEngine._extract_sources`. -/
def extract_sources (results : List SearchHit) : List SourceRef :=
  let final := (results.take 3).foldl (fun (st : List SourceRef × List (List Char)) hit =>
    if hit.document_title ∈ st.2 then st
    else
      let doc_name := if hit.document_path ≠ [] then lastOr (hit.document_path.splitOn '/')
        else pys "document"
      (st.1 ++ [{ type := pys "document", title := hit.document_title,
                  path := hit.document_path, relevance := pyRound2 hit.score,
                  link := pys "/docs/" ++ doc_name }],
       st.2 ++ [hit.document_title])) ([], [])
  final.1.take 3

/-- The category-specific suggestion lists of `_no_results_response`. -/
def suggestion_list (qa : QueryAnalysis) : List (List Char) :=
  if qa.query_type = QueryType.PERSON then
    [pys "Team structure and roles", pys "CTO: Alexandra Chen",
     pys "CIO: Marcus Williams", pys "Development team members"]
  else if qa.query_type = QueryType.TECHNOLOGY then
    [pys "Technology stack overview", pys "Frontend frameworks (React, TypeScript)",
     pys "Backend technologies (Python, Node.js)", pys "Machine learning tools"]
  else
    [pys "Application architecture", pys "Technology stack",
     pys "Team members and roles", pys "Development processes"]

/-- The message built by `_no_results_response` (f-string template plus one
bullet line per suggestion, with no truncation). -/
def no_results_message (qa : QueryAnalysis) : List Char :=
  let base := pys "## No Results Found\n\nI couldn't find specific information about \"" ++
    qa.original_query ++ pys "\" in the documentation.\n\n### Try asking about:\n"
  (suggestion_list qa).foldl (fun m s => m ++ bulletGlyph ++ ' ' :: s ++ ['\n']) base

/-- `SearchEngine._no_results_response` (no `confidence` and no `summary_mode`
key in the returned dict). -/
def no_results_response (qa : QueryAnalysis) : Response :=
  { message := no_results_message qa
    sources := []
    query_analysis := { type := qa.query_type.value, key_terms := qa.key_terms } }

/-- Latest start index of three consecutive newlines inside a whitespace run. -/
def findLastTriple (w : List Char) : Option Nat :=
  (List.range w.length).reverse.find? (fun m => decide ((w.drop m).take 3 = ['\n', '\n', '\n']))

/-- Scanner for `re.sub(r'\s*\n{3,}', '\n\n', s)`: a match starts at the head of
a maximal whitespace run containing three consecutive newlines and ends after
the last such triple; the run's remainder is rescanned (and never matches). -/
def subWsNl3Go : Nat → List Char → List Char
  | _, [] => []
  | 0, s => s
  | fuel + 1, c :: rest =>
      if isPySpace c then
        let w := (c :: rest).takeWhile isPySpace
        let tail := (c :: rest).dropWhile isPySpace
        let chunk :=
          match findLastTriple w with
          | some m => pys "\n\n" ++ w.drop (m + 3)
          | none => w
        chunk ++ subWsNl3Go fuel tail
      else c :: subWsNl3Go fuel rest

/-- `re.sub(r'\s*\n{3,}', '\n\n', s)` as applied to the final message. -/
def subWsNl3 (s : List Char) : List Char := subWsNl3Go s.length s

/-- The deduplicating, budgeted formatting loop of `_format_response`
(`seen_content` is the set of 100-character content prefixes; Python hashes
them, which we model by the prefixes themselves). -/
def formatLoop (qa : QueryAnalysis) :
    List SearchHit → List (List Char) → Int → List (List Char) → List (List Char)
  | [], _, _, acc => acc
  | hit :: rest, seen, total_chars, acc =>
      let contentKey := hit.content.take 100
      if contentKey ∈ seen then formatLoop qa rest seen total_chars acc
      else
        let seen := contentKey :: seen
        let remaining : Int := 2000 - total_chars - 200
        if remaining < 200 then acc
        else
          let fm := format_for_display hit qa remaining.toNat
          if fm ≠ [] then formatLoop qa rest seen (total_chars + fm.length + 2) (acc ++ [fm])
          else formatLoop qa rest seen total_chars acc

/-- The sources/citation loop of `_format_response`: returns the `sources` list
and the citation message lines. -/
def buildSources (l : List SearchHit) : List SourceRef × List (List Char) :=
  let final := (l.take 3).foldl
    (fun (st : List SourceRef × List (List Char) × List (List Char)) hit =>
      if hit.document_title ∈ st.2.1 then st
      else
        let seen_docs := st.2.1 ++ [hit.document_title]
        let doc_name := if hit.document_path ≠ [] then lastOr (hit.document_path.splitOn '/')
          else pys "document"
        let sources := st.1 ++ [{ type := pys "document", title := hit.document_title,
                                  path := hit.document_path, relevance := pyRound2 hit.score,
                                  link := pys "/docs/" ++ doc_name }]
        let parts := if sources.length ≤ 3 then
          st.2.2 ++ [arrowGlyph ++ ' ' :: hit.document_title] else st.2.2
        (sources, seen_docs, parts)) ([], [], [])
  (final.1, final.2.2)

/-- The two shapes `_format_response` receives from `search`: either the
single-element summary-record list built by the summary branch, or a plain list
of hits (possibly empty). -/
inductive AggregatedResults
  | summaryRec (summary : List Char) (summary_mode : List Char)
      (original_results : List SearchHit)
  | hits (results : List SearchHit)

/-- `SearchEngine._format_response`. -/
def format_response (results : AggregatedResults) (qa : QueryAnalysis) : Response :=
  match results with
  | .summaryRec summary mode originals =>
      { message := summary
        sources := extract_sources originals
        query_analysis := { type := qa.query_type.value, key_terms := qa.key_terms }
        summary_mode := some mode
        confidence := some (calculate_confidence originals) }
  | .hits [] => no_results_response qa
  | .hits (h :: t) =>
      let l := h :: t
      let confidence := calculate_confidence l
      let clean_title := clean_text (generate_response_title qa)
      let message_parts := [clean_title]
      let formatted_results := formatLoop qa (l.take 3) [] ((clean_title.length : Int) + 2) []
      let message_parts :=
        if formatted_results ≠ [] then message_parts ++ formatted_results
        else message_parts ++ (l.take 2).filterMap (fun hit =>
          match hit.highlights with
          | hl :: _ => some (bulletGlyph ++ ' ' :: clean_text hl)
          | [] => none)
      let message_parts :=
        if 1 < l.length ∨ 2000 < h.content.length then
          message_parts ++ ['\n'] :: [docGlyph ++ pys " **View full documentation:**"]
        else message_parts
      let sourcesAndLinks := buildSources l
      let message_parts := message_parts ++ sourcesAndLinks.2
      let final_message := List.intercalate (pys "\n\n") message_parts
      let final_message := subWsNl3 final_message
      let final_message :=
        strReplace (strReplace final_message bulletGlyph bulletGlyph) arrowGlyph arrowGlyph
      { message := final_message.take 2000
        sources := sourcesAndLinks.1.take 3
        query_analysis := { type := qa.query_type.value, key_terms := qa.key_terms }
        confidence := some confidence }

/-! ### ConversationalContext -/

structure ConversationTurn where
  query : List Char
  response : List Char
deriving DecidableEq

def follow_up_patterns : List (List Char) :=
  [pys "tell me more", pys "more about", pys "what about", pys "how about",
   pys "and what", pys "anything else", pys "elaborate", pys "explain further",
   pys "more details", pys "more information"]

def pronoun_tokens : List (List Char) :=
  [pys "it", pys "this", pys "that", pys "these", pys "those", pys "them",
   pys "their", pys "his", pys "her"]

def context_stop_words : List (List Char) :=
  [pys "what", pys "who", pys "where", pys "when", pys "how", pys "is", pys "are",
   pys "the", pys "a", pys "an", pys "and", pys "or", pys "but", pys "in", pys "on",
   pys "at", pys "to", pys "for"]

/-- `ConversationalContext._extract_topic`. -/
def extract_topic (query : List Char) (_response : List Char) : List Char :=
  let words := pySplit (pyLower query)
  let topic_words := words.filter (fun w => decide (w ∉ context_stop_words ∧ 2 < w.length))
  if topic_words ≠ [] then List.intercalate [' '] (topic_words.take 3)
  else pys "the previous topic"

/-- `ConversationalContext._resolve_pronouns`. -/
def resolve_pronouns (query topic : List Char) : List Char :=
  let resolved := strReplace query (pys " it ") (' ' :: topic ++ [' '])
  let resolved := strReplace resolved (pys " its ") (' ' :: topic ++ pys "'s ")
  let resolved := strReplace resolved (pys " this ") (' ' :: topic ++ [' '])
  strReplace resolved (pys " that ") (' ' :: topic ++ [' '])

/-- The follow-up-phrase test of `expand_query`. -/
def isFollowUpQuery (query_lower : List Char) : Bool :=
  follow_up_patterns.any (fun p => decide (inStr p query_lower))

/-- The padded bare-pronoun test of `expand_query`. -/
def hasPronounToken (query_lower : List Char) : Bool :=
  pronoun_tokens.any (fun p => decide (inStr (' ' :: (p ++ [' '])) (' ' :: (query_lower ++ [' ']))))

/-- `ConversationalContext.expand_query`; the context window is the list of
retained turns, oldest first. -/
def expand_query (context_window : List ConversationTurn) (query : List Char) :
    List Char × Bool :=
  match context_window with
  | [] => (query, false)
  | _ :: _ =>
      let query_lower := pyLower query
      let is_follow_up := isFollowUpQuery query_lower
      let has_pronoun := hasPronounToken query_lower
      if is_follow_up ∨ has_pronoun then
        let last_interaction := (context_window.getLast?).getD { query := [], response := [] }
        let topic := extract_topic last_interaction.query last_interaction.response
        let expanded :=
          if is_follow_up then
            if inStr (pys "tell me more") query_lower then
              topic ++ pys " - provide more detailed information"
            else if inStr (pys "what about") query_lower then
              match pySplitStr query_lower (pys "what about") with
              | _ :: p1 :: _ => pyStrip p1 ++ pys " related to " ++ topic
              | _ => pys "More information about " ++ topic
            else query ++ pys " regarding " ++ topic
          else resolve_pronouns query topic
        (expanded, true)
      else (query, false)

/-! ### Auxiliary predicates used by the theorems -/

/-- Every maximal run of the character `c` in `s` is shorter than `k`. -/
def runsBelow (c : Char) (k : Nat) (s : List Char) : Prop :=
  ∀ r ∈ toRuns s, r.1 = c → r.2 < k

/-- Well-formedness of a run list: positive counts and adjacent runs of
distinct characters (the image of `toRuns`). -/
def runsWF (rs : List (Char × Nat)) : Prop :=
  (∀ r ∈ rs, 1 ≤ r.2) ∧ rs.Chain' (fun a b => a.1 ≠ b.1)

/-- The multiplicative factor contributed by the query-type block of
`_rerank_results`. -/
def typeBoostFactor (qa : QueryAnalysis) (h : SearchHit) : ℚ := typeBoost qa h 1

/-- The multiplicative factor contributed by the universal block of
`_rerank_results`. -/
def universalBoostFactor (qa : QueryAnalysis) (h : SearchHit) : ℚ := universalBoost qa h 1

/-! ### Definitions following the wording of the claims

These transcribe claim statements (not the code) so that the code's behaviour
can be compared against them. -/

/-- Number of (possibly overlapping) substring occurrences of `needle` in
`hay`; on the inputs below no occurrences overlap, so this agrees with any
occurrence-counting convention. -/
def countOcc (needle hay : List Char) : Nat :=
  (List.range (hay.length + 1)).countP (fun i => needle.isPrefixOf (hay.drop i))

/-- Claim C5's stated classification: per category, sum the substring
*occurrence counts* of its indicators in the lowercased query; the strictly
highest count wins, all-zero gives GENERAL, ties go to the first category in
enumeration order. -/
def classifyByOccurrenceCounts (query : List Char) : QueryType :=
  let ql := pyLower query
  let p := (person_indicators.map (fun i => countOcc i ql)).sum
  let t := (tech_indicators.map (fun i => countOcc i ql)).sum
  let r := (process_indicators.map (fun i => countOcc i ql)).sum
  let a := (architecture_indicators.map (fun i => countOcc i ql)).sum
  if p = 0 ∧ t = 0 ∧ r = 0 ∧ a = 0 then QueryType.GENERAL
  else if t ≤ p ∧ r ≤ p ∧ a ≤ p then QueryType.PERSON
  else if r ≤ t ∧ a ≤ t then QueryType.TECHNOLOGY
  else if a ≤ r then QueryType.PROCESS
  else QueryType.ARCHITECTURE

/-- The amended classification statement: per category, count the indicators
that occur at least once as substrings (presence, one per indicator); the
strictly highest count wins, all-zero gives GENERAL, ties go to the first
category in enumeration order (PERSON, TECHNOLOGY, PROCESS, ARCHITECTURE). -/
def classifyByPresenceCounts (query : List Char) : QueryType :=
  let ql := pyLower query
  let p := person_indicators.countP (fun i => decide (inStr i ql))
  let t := tech_indicators.countP (fun i => decide (inStr i ql))
  let r := process_indicators.countP (fun i => decide (inStr i ql))
  let a := architecture_indicators.countP (fun i => decide (inStr i ql))
  if p = 0 ∧ t = 0 ∧ r = 0 ∧ a = 0 then QueryType.GENERAL
  else if t ≤ p ∧ r ≤ p ∧ a ≤ p then QueryType.PERSON
  else if r ≤ t ∧ a ≤ t then QueryType.TECHNOLOGY
  else if a ≤ r then QueryType.PROCESS
  else QueryType.ARCHITECTURE

/-- Claim C4's stated TECHNOLOGY multipliers, read literally: the inner
section-title chain applies whenever the document title contains
"technology stack", with no condition on the query text. -/
def techBoostFactorClaimed (qa : QueryAnalysis) (h : SearchHit) : ℚ :=
  (if inStr (pys "technology stack") (pyLower h.document_title) then
    3.0 * (if inStr (pys "machine learning stack") (pyLower h.section_title) then 5.0
      else if inStr (pys "embedding") (pyLower h.section_title) ∨
          inStr (pys "vector") (pyLower h.section_title) then 3.0
      else if inStr (pys "language model") (pyLower h.section_title) then 3.0
      else 1)
   else 1) *
  (if qa.entities.technologies.any (fun tech => decide (inStr tech (pyLower h.content))) then
    1.5 else 1) *
  (if inStr (pys "learning resources") (pyLower h.section_title) ∨
      inStr (pys "professional development") (pyLower h.section_title) then 0.1 else 1)

/-- The amended TECHNOLOGY multipliers: identical to the claim's except that
the inner section-title chain additionally requires the original query to
contain "machine learning". -/
def techBoostFactorAmended (qa : QueryAnalysis) (h : SearchHit) : ℚ :=
  (if inStr (pys "technology stack") (pyLower h.document_title) then
    3.0 * (if inStr (pys "machine learning") (pyLower qa.original_query) then
      (if inStr (pys "machine learning stack") (pyLower h.section_title) then 5.0
       else if inStr (pys "embedding") (pyLower h.section_title) ∨
           inStr (pys "vector") (pyLower h.section_title) then 3.0
       else if inStr (pys "language model") (pyLower h.section_title) then 3.0
       else 1)
      else 1)
   else 1) *
  (if qa.entities.technologies.any (fun tech => decide (inStr tech (pyLower h.content))) then
    1.5 else 1) *
  (if inStr (pys "learning resources") (pyLower h.section_title) ∨
      inStr (pys "professional development") (pyLower h.section_title) then 0.1 else 1)

/-! ### Concrete inputs used by counterexamples and witnesses -/

/-- A TECHNOLOGY query that does not contain "machine learning". -/
def c4Query : List Char := pys "frontend database"

/-- A hit from the technology-stack document's machine-learning section with
unit base score and content matching nothing. -/
def c4Hit : SearchHit :=
  { content := pys "x", document_title := pys "Technology Stack",
    section_title := pys "Machine Learning Stack", document_path := [],
    score := 1, chunk_id := [], highlights := [] }

/-- A one-turn history whose extracted topic is "cto". -/
def c9Window : List ConversationTurn :=
  [{ query := pys "who is the cto", response := pys "r" }]

/-- A query that triggers expansion only through the bare pronoun "them". -/
def c9Query : List Char := pys "tell me about them"

/-- A 2100-character query. -/
def longQuery : List Char := List.replicate 2100 'a'

/-- The analysis record of `longQuery` as a concrete input to response
formatting (GENERAL type, as `analyze` produces for it). -/
def longQueryQA : QueryAnalysis :=
  { original_query := longQuery, query_type := QueryType.GENERAL, key_terms := [],
    expanded_terms := [], entities := { people := [], technologies := [], roles := [] },
    is_question := false }

/-! ## Theorems -/

/-! ### C10: empty context window -/

/-- C10: when the context window holds zero turns, `expand_query` returns the
query unchanged and marked not expanded, whatever the query contains. -/
theorem c10_expand_query_empty_window (query : List Char) :
    expand_query [] query = (query, false) := rfl

/-! ### C8: key terms are contained in expanded terms -/

/-- The synonym-extension fold of `_expand_terms` only ever appends, so it
preserves membership of the initial list. -/
theorem mem_expand_fold {t : List Char} (terms : List (List Char))
    {init : List (List Char)} (h : t ∈ init) :
    t ∈ terms.foldl (fun expanded term =>
      match List.lookup term synonyms with
      | some syns => expanded ++ syns
      | none => expanded) init := by
  induction terms generalizing init with
  | nil => exact h
  | cons x xs ih =>
      rw [List.foldl_cons]
      cases hx : List.lookup x synonyms with
      | none => exact ih h
      | some syns => exact ih (List.mem_append_left _ h)

/-- Any list is contained in its `_expand_terms` expansion. -/
theorem mem_expand_terms {t : List Char} {terms : List (List Char)} (h : t ∈ terms) :
    t ∈ expand_terms terms :=
  List.mem_dedup.mpr (mem_expand_fold terms h)

/-- C8: every key term produced by `QueryAnalyzer.analyze` is also among the
expanded terms. -/
theorem c8_key_terms_subset_expanded (query : List Char) (t : List Char)
    (ht : t ∈ (analyze query).key_terms) : t ∈ (analyze query).expanded_terms :=
  mem_expand_terms ht

/-- Witness for C8 at the query "deploy the app" and the key term "deploy". -/
theorem c8_witness :
    pys "deploy" ∈ (analyze (pys "deploy the app")).key_terms ∧
    pys "deploy" ∈ (analyze (pys "deploy the app")).expanded_terms :=
  ⟨by decide, c8_key_terms_subset_expanded (pys "deploy the app") (pys "deploy") (by decide)⟩

/-! ### C9: pronoun-triggered query expansion -/

/-- C9 counterexample: with a non-empty history and a query whose only trigger
is the bare pronoun "them", `expand_query` reports `was_expanded = true` but
returns the query verbatim: the pronoun token is not substituted, and the
expanded query does not contain the extracted topic ("cto") at all. -/
theorem c9_counterexample :
    expand_query c9Window c9Query = (c9Query, true) ∧
    hasPronounToken (pyLower c9Query) = true ∧
    isFollowUpQuery (pyLower c9Query) = false ∧
    ¬ inStr (extract_topic (pys "who is the cto") (pys "r")) c9Query := by
  refine ⟨by decide, by decide, by decide, by decide⟩

/-- C9 amended: for a pronoun-only trigger and a non-empty history,
`expand_query` returns `was_expanded = true` and the result of
`_resolve_pronouns`, which substitutes the topic only for the space-surrounded
tokens "it", "its", "this", "that" and leaves every other pronoun token (and
pronouns at the query boundary) unchanged. -/
theorem c9_amended_pronoun_only (win : List ConversationTurn) (query : List Char)
    (hw : win ≠ []) (hf : isFollowUpQuery (pyLower query) = false)
    (hp : hasPronounToken (pyLower query) = true) :
    expand_query win query =
      (resolve_pronouns query
        (extract_topic ((win.getLast?).getD { query := [], response := [] }).query
          ((win.getLast?).getD { query := [], response := [] }).response), true) := by
  match win with
  | w :: ws =>
      show expand_query (w :: ws) query = _
      simp only [expand_query, hf, hp, Bool.false_or, if_true, Bool.false_eq_true, if_false,
        false_or, or_true]

/-- Witness for C9 applying the amended theorem at the concrete window and
query of the counterexample. -/
theorem c9_witness :
    c9Window ≠ [] ∧ isFollowUpQuery (pyLower c9Query) = false ∧
    hasPronounToken (pyLower c9Query) = true ∧
    expand_query c9Window c9Query =
      (resolve_pronouns c9Query
        (extract_topic ((c9Window.getLast?).getD { query := [], response := [] }).query
          ((c9Window.getLast?).getD { query := [], response := [] }).response), true) :=
  ⟨by decide, by decide, by decide,
    c9_amended_pronoun_only c9Window c9Query (by decide) (by decide) (by decide)⟩

/-! ### C3: confidence bounds -/

/-- Rounding to two decimal places maps the unit interval into itself. -/
theorem pyRound2_mem_unit {q : ℚ} (h0 : 0 ≤ q) (h1 : q ≤ 1) :
    0 ≤ pyRound2 q ∧ pyRound2 q ≤ 1 := by
  have hx1 : q * 100 ≤ 100 := by nlinarith
  have hfl0 : (0 : ℤ) ≤ ⌊q * 100⌋ := Int.floor_nonneg.mpr (by positivity)
  have hfl_le : (⌊q * 100⌋ : ℚ) ≤ q * 100 := Int.floor_le _
  have h100 : (⌊q * 100⌋ : ℤ) ≤ 100 := by
    have : (⌊q * 100⌋ : ℚ) ≤ 100 := by linarith
    exact_mod_cast this
  have h99 : (1 : ℚ) / 2 ≤ q * 100 - ⌊q * 100⌋ → (⌊q * 100⌋ + 1 : ℤ) ≤ 100 := by
    intro hfr
    have hlt : (⌊q * 100⌋ : ℚ) < 100 := by linarith
    have : ⌊q * 100⌋ < 100 := by exact_mod_cast hlt
    omega
  unfold pyRound2
  split_ifs with hc1 hc2 hc3
  · exact ⟨by positivity, by rw [div_le_one (by norm_num)]; exact_mod_cast h100⟩
  · refine ⟨by positivity, ?_⟩
    rw [div_le_one (by norm_num)]
    exact_mod_cast h99 (le_of_lt hc2)
  · exact ⟨by positivity, by rw [div_le_one (by norm_num)]; exact_mod_cast h100⟩
  · refine ⟨by positivity, ?_⟩
    rw [div_le_one (by norm_num)]
    exact_mod_cast h99 (le_of_not_lt hc1)

/-- The `confidence_score` local always lies in `[0, 0.95]`. -/
theorem confidence_score_of_bounds (t : ℚ) :
    0 ≤ confidence_score_of t ∧ confidence_score_of t ≤ 0.95 := by
  unfold confidence_score_of
  split_ifs with h2 h1 h5
  · exact ⟨le_min (by norm_num) (by linarith), min_le_left _ _⟩
  · have := not_lt.mp h2
    exact ⟨by linarith, by linarith⟩
  · have := not_lt.mp h1
    exact ⟨by linarith, by linarith⟩
  · have := not_lt.mp h5
    exact ⟨le_trans (by norm_num) (le_max_left _ _), max_le (by norm_num) (by linarith)⟩

/-- C3: the confidence record has a score in `[0, 1]`; its level is one of the
four enumerated strings, chosen from the top hit's score by the stated
thresholds; and with no results it is exactly level "low", score 0.0. -/
theorem c3_confidence_bounds (results : List SearchHit) :
    ((calculate_confidence results).level = pys "high" ∨
     (calculate_confidence results).level = pys "medium" ∨
     (calculate_confidence results).level = pys "low" ∨
     (calculate_confidence results).level = pys "very_low") ∧
    (0 ≤ (calculate_confidence results).score ∧ (calculate_confidence results).score ≤ 1) ∧
    (∀ top rest, results = top :: rest →
      ((2.0 < top.score → (calculate_confidence results).level = pys "high") ∧
       (top.score ≤ 2.0 → 1.0 < top.score → (calculate_confidence results).level = pys "medium") ∧
       (top.score ≤ 1.0 → 0.5 < top.score → (calculate_confidence results).level = pys "low") ∧
       (top.score ≤ 0.5 → (calculate_confidence results).level = pys "very_low"))) ∧
    (results = [] → calculate_confidence results =
      { level := pys "low", score := 0, explanation := pys "No matching documents found" }) := by
  match results with
  | [] =>
      refine ⟨Or.inr (Or.inr (Or.inl rfl)), ⟨le_refl 0, by norm_num [calculate_confidence]⟩,
        ?_, fun _ => rfl⟩
      intro top rest h
      exact absurd h (by simp)
  | top :: rest =>
      have hcs := confidence_score_of_bounds top.score
      have hlevel : ∀ t : ℚ, confidence_level_of t = pys "high" ∨
          confidence_level_of t = pys "medium" ∨ confidence_level_of t = pys "low" ∨
          confidence_level_of t = pys "very_low" := by
        intro t
        unfold confidence_level_of
        split_ifs <;> simp
      have hboost : ∀ b : ℚ × List (List Char),
          b = (match rest with
            | second :: _ =>
                if 1.0 < second.score then
                  (min 1.0 (confidence_score_of top.score + 0.1), [pys "multiple sources"])
                else (confidence_score_of top.score, [])
            | [] => (confidence_score_of top.score, [])) →
          0 ≤ b.1 ∧ b.1 ≤ 1 := by
        intro b hb
        match rest with
        | [] => rw [hb]; exact ⟨hcs.1, hcs.2.trans (by norm_num)⟩
        | second :: rest2 =>
            by_cases hs : (1.0 : ℚ) < second.score
            · rw [hb]
              simp only [hs, if_true]
              exact ⟨le_min (by norm_num) (by linarith [hcs.1]),
                (min_le_left _ _).trans (by norm_num)⟩
            · rw [hb]
              simp only [hs, if_false]
              exact ⟨hcs.1, hcs.2.trans (by norm_num)⟩
      refine ⟨?_, ?_, ?_, ?_⟩
      · exact hlevel top.score
      · have hb := hboost _ rfl
        exact pyRound2_mem_unit hb.1 hb.2
      · intro top' rest' heq
        injection heq with h1 h2
        subst h1
        refine ⟨?_, ?_, ?_, ?_⟩
        · intro ht
          show confidence_level_of top.score = _
          unfold confidence_level_of
          rw [if_pos ht]
        · intro hle ht
          show confidence_level_of top.score = _
          unfold confidence_level_of
          rw [if_neg (not_lt.mpr hle), if_pos ht]
        · intro hle ht
          show confidence_level_of top.score = _
          unfold confidence_level_of
          rw [if_neg (by exact not_lt.mpr (by linarith)), if_neg (not_lt.mpr hle), if_pos ht]
        · intro hle
          show confidence_level_of top.score = _
          unfold confidence_level_of
          rw [if_neg (by exact not_lt.mpr (by linarith)),
            if_neg (by exact not_lt.mpr (by linarith)), if_neg (not_lt.mpr hle)]
      · intro h
        exact absurd h (by simp)

/-- Witness for C3: the theorem applied at the empty result list yields the
exact no-results confidence record. -/
theorem c3_witness :
    calculate_confidence [] =
      { level := pys "low", score := 0, explanation := pys "No matching documents found" } :=
  (c3_confidence_bounds []).2.2.2 rfl

/-! ### C5: query classification -/

/-- C5 counterexample: on "team team api model" occurrence counting ties PERSON
and TECHNOLOGY at 2 and the claim's tie-break picks PERSON, but the code counts
each indicator at most once and returns TECHNOLOGY. -/
theorem c5_counterexample :
    classify_query (pys "team team api model") = QueryType.TECHNOLOGY ∧
    classifyByOccurrenceCounts (pys "team team api model") = QueryType.PERSON :=
  ⟨by decide, by decide⟩

/-- C5 amended: classification counts each indicator once when it occurs as a
substring (presence, not occurrences); the category with the strictly highest
presence count is returned, all-zero counts give GENERAL, and ties are broken
by the first category in enumeration order. -/
theorem c5_amended_presence_classification (query : List Char) :
    classify_query query = classifyByPresenceCounts query := by
  unfold classify_query classifyByPresenceCounts pyMaxBySecond
  generalize person_indicators.countP _ = p
  generalize tech_indicators.countP _ = t
  generalize process_indicators.countP _ = r
  generalize architecture_indicators.countP _ = a
  simp only [List.foldl_cons, List.foldl_nil]
  split_ifs <;> first | rfl | omega

/-! ### C4 and C7: re-ranking -/

/-- An `if`-controlled multiplication scales its input. -/
theorem ite_scale (P : Prop) [Decidable P] (a k : ℚ) :
    (if P then a * k else a) = a * (if P then k else 1) := by
  split_ifs <;> ring

/-- The PERSON branch of `typeBoost` scales its input (abstract conditions). -/
theorem person_shape (C1 C2 : Prop) [Decidable C1] [Decidable C2] (s : ℚ) :
    (if C2 then (if C1 then s * 2.0 else s) * 1.5 else (if C1 then s * 2.0 else s)) =
      s * (if C2 then (if C1 then 1 * 2.0 else 1) * 1.5 else (if C1 then 1 * 2.0 else 1)) := by
  split_ifs <;> ring

/-- The TECHNOLOGY branch of `typeBoost` scales its input (abstract conditions). -/
theorem tech_shape (D M S1 S2 S3 T P : Prop)
    [Decidable D] [Decidable M] [Decidable S1] [Decidable S2] [Decidable S3]
    [Decidable T] [Decidable P] (s : ℚ) :
    (if P then
      (if T then
        (if D then
          (if M then
            (if S1 then s * 3.0 * 5.0
             else if S2 then s * 3.0 * 3.0
             else if S3 then s * 3.0 * 3.0
             else s * 3.0)
           else s * 3.0)
         else s) * 1.5
       else
        (if D then
          (if M then
            (if S1 then s * 3.0 * 5.0
             else if S2 then s * 3.0 * 3.0
             else if S3 then s * 3.0 * 3.0
             else s * 3.0)
           else s * 3.0)
         else s)) * 0.1
     else
      (if T then
        (if D then
          (if M then
            (if S1 then s * 3.0 * 5.0
             else if S2 then s * 3.0 * 3.0
             else if S3 then s * 3.0 * 3.0
             else s * 3.0)
           else s * 3.0)
         else s) * 1.5
       else
        (if D then
          (if M then
            (if S1 then s * 3.0 * 5.0
             else if S2 then s * 3.0 * 3.0
             else if S3 then s * 3.0 * 3.0
             else s * 3.0)
           else s * 3.0)
         else s))) =
    s *
    (if P then
      (if T then
        (if D then
          (if M then
            (if S1 then 1 * 3.0 * 5.0
             else if S2 then 1 * 3.0 * 3.0
             else if S3 then 1 * 3.0 * 3.0
             else 1 * 3.0)
           else 1 * 3.0)
         else 1) * 1.5
       else
        (if D then
          (if M then
            (if S1 then 1 * 3.0 * 5.0
             else if S2 then 1 * 3.0 * 3.0
             else if S3 then 1 * 3.0 * 3.0
             else 1 * 3.0)
           else 1 * 3.0)
         else 1)) * 0.1
     else
      (if T then
        (if D then
          (if M then
            (if S1 then 1 * 3.0 * 5.0
             else if S2 then 1 * 3.0 * 3.0
             else if S3 then 1 * 3.0 * 3.0
             else 1 * 3.0)
           else 1 * 3.0)
         else 1) * 1.5
       else
        (if D then
          (if M then
            (if S1 then 1 * 3.0 * 5.0
             else if S2 then 1 * 3.0 * 3.0
             else if S3 then 1 * 3.0 * 3.0
             else 1 * 3.0)
           else 1 * 3.0)
         else 1))) := by
  split_ifs <;> ring

/-- The PROCESS branch of `typeBoost` scales its input (abstract condition). -/
theorem process_shape (C : Prop) [Decidable C] (s : ℚ) :
    (if C then s * 1.8 else s) = s * (if C then 1 * 1.8 else 1) := by
  split_ifs <;> ring

/-- The universal phrase-match chain scales its input (abstract conditions). -/
theorem chain2_shape (A B : Prop) [Decidable A] [Decidable B] (s : ℚ) :
    (if A then s * 10.0 else if B then s * 2.5 else s) =
      s * (if A then 1 * 10.0 else if B then 1 * 2.5 else 1) := by
  split_ifs <;> ring

/-- The two-condition step shape of the title-term loop (abstract conditions). -/
theorem step_shape (C1 C2 : Prop) [Decidable C1] [Decidable C2] (s : ℚ) :
    (if C2 then (if C1 then s * 1.5 else s) * 1.3 else (if C1 then s * 1.5 else s)) =
      s * (if C2 then (if C1 then 1 * 1.5 else 1) * 1.3 else (if C1 then 1 * 1.5 else 1)) := by
  split_ifs <;> ring

/-- Each title-term step scales its input. -/
theorem titleTermStep_mul (h : SearchHit) (s : ℚ) (x : List Char) :
    titleTermStep h s x = s * titleTermStep h 1 x := by
  unfold titleTermStep
  dsimp only
  apply step_shape

/-- The title-term loop scales its input. -/
theorem titleTermBoost_mul (terms : List (List Char)) (h : SearchHit) (s : ℚ) :
    titleTermBoost terms h s = s * titleTermBoost terms h 1 := by
  induction terms generalizing s with
  | nil => simp [titleTermBoost]
  | cons x xs ih =>
      simp only [titleTermBoost, List.foldl_cons] at ih ⊢
      rw [ih (titleTermStep h s x), ih (titleTermStep h 1 x), titleTermStep_mul]
      ring

/-- The query-type block scales its input. -/
theorem typeBoost_mul (qa : QueryAnalysis) (h : SearchHit) (s : ℚ) :
    typeBoost qa h s = s * typeBoostFactor qa h := by
  unfold typeBoostFactor typeBoost
  cases qa.query_type <;> dsimp only
  case PERSON => apply person_shape
  case TECHNOLOGY => apply tech_shape
  case PROCESS => apply process_shape
  case ARCHITECTURE => ring
  case GENERAL => ring

/-- The universal block scales its input. -/
theorem universalBoost_mul (qa : QueryAnalysis) (h : SearchHit) (s : ℚ) :
    universalBoost qa h s = s * universalBoostFactor qa h := by
  have key : ∀ w : ℚ, titleTermBoost qa.key_terms h (s * w) =
      s * titleTermBoost qa.key_terms h w := by
    intro w
    rw [titleTermBoost_mul qa.key_terms h (s * w), titleTermBoost_mul qa.key_terms h w]
    ring
  unfold universalBoostFactor universalBoost
  dsimp only
  rw [chain2_shape]
  exact key _

/-- The final score factors as base score times the two block factors. -/
theorem rerankHitScore_eq (qa : QueryAnalysis) (h : SearchHit) :
    rerankHitScore qa h = h.score * typeBoostFactor qa h * universalBoostFactor qa h := by
  unfold rerankHitScore
  rw [universalBoost_mul, typeBoost_mul]

/-- The TECHNOLOGY factor of `typeBoost` at input 1, in product form
(abstract conditions). -/
theorem tech_factor_shape (D M S1 S2 S3 T P : Prop)
    [Decidable D] [Decidable M] [Decidable S1] [Decidable S2] [Decidable S3]
    [Decidable T] [Decidable P] :
    ((if P then
      (if T then
        (if D then
          (if M then
            (if S1 then 1 * 3.0 * 5.0
             else if S2 then 1 * 3.0 * 3.0
             else if S3 then 1 * 3.0 * 3.0
             else 1 * 3.0)
           else 1 * 3.0)
         else 1) * 1.5
       else
        (if D then
          (if M then
            (if S1 then 1 * 3.0 * 5.0
             else if S2 then 1 * 3.0 * 3.0
             else if S3 then 1 * 3.0 * 3.0
             else 1 * 3.0)
           else 1 * 3.0)
         else 1)) * 0.1
     else
      (if T then
        (if D then
          (if M then
            (if S1 then 1 * 3.0 * 5.0
             else if S2 then 1 * 3.0 * 3.0
             else if S3 then 1 * 3.0 * 3.0
             else 1 * 3.0)
           else 1 * 3.0)
         else 1) * 1.5
       else
        (if D then
          (if M then
            (if S1 then 1 * 3.0 * 5.0
             else if S2 then 1 * 3.0 * 3.0
             else if S3 then 1 * 3.0 * 3.0
             else 1 * 3.0)
           else 1 * 3.0)
         else 1))) : ℚ) =
    (if D then
      3.0 * (if M then
        (if S1 then 5.0
         else if S2 then 3.0
         else if S3 then 3.0
         else 1)
       else 1)
     else 1) *
    (if T then 1.5 else 1) * (if P then 0.1 else 1) := by
  split_ifs <;> norm_num

/-- C4 amended: for TECHNOLOGY-classified queries the final score is the base
score times the amended technology factors (section-title chain guarded by
"machine learning" occurring in the original query) times the universal
factors. -/
theorem c4_amended_tech_multipliers (qa : QueryAnalysis) (h : SearchHit)
    (hq : qa.query_type = QueryType.TECHNOLOGY) :
    rerankHitScore qa h = h.score * techBoostFactorAmended qa h * universalBoostFactor qa h := by
  rw [rerankHitScore_eq]
  have hfac : typeBoostFactor qa h = techBoostFactorAmended qa h := by
    unfold typeBoostFactor typeBoost techBoostFactorAmended
    rw [hq]
    dsimp only
    apply tech_factor_shape
  rw [hfac]

/-- Witness for C4: the amended equation instantiated at the concrete
TECHNOLOGY query "frontend database" and the machine-learning-stack hit. -/
theorem c4_witness :
    (analyze c4Query).query_type = QueryType.TECHNOLOGY ∧
    rerankHitScore (analyze c4Query) c4Hit =
      c4Hit.score * techBoostFactorAmended (analyze c4Query) c4Hit *
        universalBoostFactor (analyze c4Query) c4Hit :=
  ⟨by decide, c4_amended_tech_multipliers (analyze c4Query) c4Hit (by decide)⟩

/-- C4 counterexample: on the TECHNOLOGY query "frontend database" (which does
not contain "machine learning") and a hit from the "Technology Stack" document
with section "Machine Learning Stack", the code multiplies only by 3.0
(score 3), while the claim's unguarded multipliers demand the further 5.0
(score 15). -/
theorem c4_counterexample :
    rerankHitScore (analyze c4Query) c4Hit ≠
      c4Hit.score * techBoostFactorClaimed (analyze c4Query) c4Hit *
        universalBoostFactor (analyze c4Query) c4Hit := by
  have hq : (analyze c4Query).query_type = QueryType.TECHNOLOGY := by decide
  rw [c4_amended_tech_multipliers _ _ hq]
  have hdoc : inStr (pys "technology stack") (pyLower c4Hit.document_title) := by decide
  have hml : ¬ inStr (pys "machine learning") (pyLower (analyze c4Query).original_query) := by
    decide
  have hmls : inStr (pys "machine learning stack") (pyLower c4Hit.section_title) := by decide
  have hte : ¬ ((analyze c4Query).entities.technologies.any
      (fun tech => decide (inStr tech (pyLower c4Hit.content)))) = true := by decide
  have hpen1 : ¬ inStr (pys "learning resources") (pyLower c4Hit.section_title) := by decide
  have hpen2 : ¬ inStr (pys "professional development") (pyLower c4Hit.section_title) := by
    decide
  have hu : universalBoostFactor (analyze c4Query) c4Hit = 1 := by
    have hk : (analyze c4Query).key_terms = [pys "frontend", pys "database"] := by decide
    unfold universalBoostFactor universalBoost
    dsimp only
    rw [if_neg (by decide), if_neg (by decide), hk]
    simp only [titleTermBoost, List.foldl_cons, List.foldl_nil, titleTermStep]
    rw [if_neg (by decide), if_neg (by decide), if_neg (by decide), if_neg (by decide)]
  have hamended : techBoostFactorAmended (analyze c4Query) c4Hit = 3 := by
    unfold techBoostFactorAmended
    rw [if_pos hdoc, if_neg hml, if_neg hte, if_neg (not_or_intro hpen1 hpen2)]
    norm_num
  have hclaimed : techBoostFactorClaimed (analyze c4Query) c4Hit = 15 := by
    unfold techBoostFactorClaimed
    rw [if_pos hdoc, if_pos hmls, if_neg hte, if_neg (not_or_intro hpen1 hpen2)]
    norm_num
  rw [hu, hamended, hclaimed]
  have hs : c4Hit.score = 1 := rfl
  rw [hs]
  norm_num

/-- Appending to a string preserves substring containment. -/
theorem inStr_append {n c : List Char} (t : List Char) (h : inStr n c) : inStr n (c ++ t) :=
  h.trans (List.prefix_append c t).isInfix

/-- Lowercasing distributes over append. -/
theorem pyLower_append (c t : List Char) : pyLower (c ++ t) = pyLower c ++ pyLower t :=
  List.map_append _ c t

/-- Substring containment in lowercased content survives appending. -/
theorem inStr_lower_content_append {n c : List Char} (t : List Char)
    (h : inStr n (pyLower c)) : inStr n (pyLower (c ++ t)) := by
  rw [pyLower_append]
  exact inStr_append _ h

/-- An `any`-over-substrings test on lowercased content survives appending. -/
theorem any_inStr_content_append (l : List (List Char)) (c t : List Char)
    (h : (l.any fun x => decide (inStr x (pyLower c))) = true) :
    (l.any fun x => decide (inStr x (pyLower (c ++ t)))) = true := by
  rw [List.any_eq_true] at h ⊢
  obtain ⟨x, hx, hd⟩ := h
  refine ⟨x, hx, ?_⟩
  rw [decide_eq_true_eq] at hd ⊢
  exact inStr_lower_content_append t hd

/-- Monotonicity of the PERSON factor in the roles-in-content condition
(abstract conditions). -/
theorem person_factor_mono (C1 C2 C2' : Prop)
    [Decidable C1] [Decidable C2] [Decidable C2'] (h22 : C2 → C2') :
    (0:ℚ) ≤ (if C2 then (if C1 then 1 * 2.0 else 1) * 1.5 else (if C1 then 1 * 2.0 else 1)) ∧
    (if C2 then (if C1 then (1:ℚ) * 2.0 else 1) * 1.5 else (if C1 then 1 * 2.0 else 1)) ≤
      (if C2' then (if C1 then 1 * 2.0 else 1) * 1.5 else (if C1 then 1 * 2.0 else 1)) := by
  constructor
  · split_ifs <;> norm_num
  · split_ifs <;> first | exact absurd (h22 (by assumption)) (by assumption) | norm_num

set_option maxHeartbeats 1000000 in
/-- Monotonicity of the TECHNOLOGY factor in the technology-in-content
condition (abstract conditions). -/
theorem tech_factor_mono (D M S1 S2 S3 T T' P : Prop)
    [Decidable D] [Decidable M] [Decidable S1] [Decidable S2] [Decidable S3]
    [Decidable T] [Decidable T'] [Decidable P] (hTT' : T → T') :
    (0:ℚ) ≤ (if P then
      (if T then
        (if D then
          (if M then
            (if S1 then (1:ℚ) * 3.0 * 5.0
             else if S2 then 1 * 3.0 * 3.0
             else if S3 then 1 * 3.0 * 3.0
             else 1 * 3.0)
           else 1 * 3.0)
         else 1) * 1.5
       else
        (if D then
          (if M then
            (if S1 then (1:ℚ) * 3.0 * 5.0
             else if S2 then 1 * 3.0 * 3.0
             else if S3 then 1 * 3.0 * 3.0
             else 1 * 3.0)
           else 1 * 3.0)
         else 1)) * 0.1
     else
      (if T then
        (if D then
          (if M then
            (if S1 then (1:ℚ) * 3.0 * 5.0
             else if S2 then 1 * 3.0 * 3.0
             else if S3 then 1 * 3.0 * 3.0
             else 1 * 3.0)
           else 1 * 3.0)
         else 1) * 1.5
       else
        (if D then
          (if M then
            (if S1 then (1:ℚ) * 3.0 * 5.0
             else if S2 then 1 * 3.0 * 3.0
             else if S3 then 1 * 3.0 * 3.0
             else 1 * 3.0)
           else 1 * 3.0)
         else 1))) ∧
    (if P then
      (if T then
        (if D then
          (if M then
            (if S1 then (1:ℚ) * 3.0 * 5.0
             else if S2 then 1 * 3.0 * 3.0
             else if S3 then 1 * 3.0 * 3.0
             else 1 * 3.0)
           else 1 * 3.0)
         else 1) * 1.5
       else
        (if D then
          (if M then
            (if S1 then (1:ℚ) * 3.0 * 5.0
             else if S2 then 1 * 3.0 * 3.0
             else if S3 then 1 * 3.0 * 3.0
             else 1 * 3.0)
           else 1 * 3.0)
         else 1)) * 0.1
     else
      (if T then
        (if D then
          (if M then
            (if S1 then (1:ℚ) * 3.0 * 5.0
             else if S2 then 1 * 3.0 * 3.0
             else if S3 then 1 * 3.0 * 3.0
             else 1 * 3.0)
           else 1 * 3.0)
         else 1) * 1.5
       else
        (if D then
          (if M then
            (if S1 then (1:ℚ) * 3.0 * 5.0
             else if S2 then 1 * 3.0 * 3.0
             else if S3 then 1 * 3.0 * 3.0
             else 1 * 3.0)
           else 1 * 3.0)
         else 1))) ≤
    (if P then
      (if T' then
        (if D then
          (if M then
            (if S1 then (1:ℚ) * 3.0 * 5.0
             else if S2 then 1 * 3.0 * 3.0
             else if S3 then 1 * 3.0 * 3.0
             else 1 * 3.0)
           else 1 * 3.0)
         else 1) * 1.5
       else
        (if D then
          (if M then
            (if S1 then (1:ℚ) * 3.0 * 5.0
             else if S2 then 1 * 3.0 * 3.0
             else if S3 then 1 * 3.0 * 3.0
             else 1 * 3.0)
           else 1 * 3.0)
         else 1)) * 0.1
     else
      (if T' then
        (if D then
          (if M then
            (if S1 then (1:ℚ) * 3.0 * 5.0
             else if S2 then 1 * 3.0 * 3.0
             else if S3 then 1 * 3.0 * 3.0
             else 1 * 3.0)
           else 1 * 3.0)
         else 1) * 1.5
       else
        (if D then
          (if M then
            (if S1 then (1:ℚ) * 3.0 * 5.0
             else if S2 then 1 * 3.0 * 3.0
             else if S3 then 1 * 3.0 * 3.0
             else 1 * 3.0)
           else 1 * 3.0)
         else 1))) := by
  constructor
  · split_ifs <;> norm_num
  · split_ifs <;> first | exact absurd (hTT' (by assumption)) (by assumption) | norm_num

/-- Monotonicity of the universal phrase-match chain in the
query-in-content condition (abstract conditions). -/
theorem chain2_mono (A B B' : Prop) [Decidable A] [Decidable B] [Decidable B']
    (hBB' : B → B') :
    (0:ℚ) ≤ (if A then (1:ℚ) * 10.0 else if B then 1 * 2.5 else 1) ∧
    (if A then (1:ℚ) * 10.0 else if B then 1 * 2.5 else 1) ≤
      (if A then (1:ℚ) * 10.0 else if B' then 1 * 2.5 else 1) := by
  constructor
  · split_ifs <;> norm_num
  · split_ifs <;> first | exact absurd (hBB' (by assumption)) (by assumption) | norm_num

/-- One monotone multiplication step of the title-term loop (abstract). -/
theorem ite_mul_mono_same (P : Prop) [Decidable P] (a b k : ℚ)
    (hk : 0 ≤ k) (h0 : 0 ≤ a) (hab : a ≤ b) :
    0 ≤ (if P then a * k else a) ∧ (if P then a * k else a) ≤ (if P then b * k else b) := by
  split_ifs with hP
  · exact ⟨mul_nonneg h0 hk, mul_le_mul_of_nonneg_right hab hk⟩
  · exact ⟨h0, hab⟩

/-- Each title-term step is nonnegative and monotone in the running score. -/
theorem titleTermStep_mono (h : SearchHit) (x : List Char) {a b : ℚ}
    (h0 : 0 ≤ a) (hab : a ≤ b) :
    0 ≤ titleTermStep h a x ∧ titleTermStep h a x ≤ titleTermStep h b x := by
  unfold titleTermStep
  dsimp only
  have h1 := ite_mul_mono_same
    (3 < x.length ∧ inStr (pyLower x) (pyLower h.section_title)) a b 1.5 (by norm_num) h0 hab
  exact ite_mul_mono_same _ _ _ 1.3 (by norm_num) h1.1 h1.2

/-- The title-term loop is nonnegative and monotone in the running score. -/
theorem titleTermBoost_mono (terms : List (List Char)) (h : SearchHit) (a b : ℚ)
    (h0 : 0 ≤ a) (hab : a ≤ b) :
    0 ≤ titleTermBoost terms h a ∧ titleTermBoost terms h a ≤ titleTermBoost terms h b := by
  induction terms generalizing a b with
  | nil => exact ⟨h0, hab⟩
  | cons x xs ih =>
      simp only [titleTermBoost, List.foldl_cons] at ih ⊢
      have hstep := titleTermStep_mono h x h0 hab
      exact ih _ _ hstep.1 hstep.2

/-- The title-term loop ignores the hit's content. -/
theorem titleTermBoost_content (terms : List (List Char)) (h : SearchHit)
    (x : List Char) (s : ℚ) :
    titleTermBoost terms { h with content := x } s = titleTermBoost terms h s := rfl

/-- The type factor is nonnegative and can only grow when content is appended. -/
theorem typeBoostFactor_content_mono (qa : QueryAnalysis) (h : SearchHit) (t : List Char) :
    0 ≤ typeBoostFactor qa h ∧
      typeBoostFactor qa h ≤ typeBoostFactor qa { h with content := h.content ++ t } := by
  unfold typeBoostFactor typeBoost
  cases qa.query_type <;> dsimp only
  case PERSON => exact person_factor_mono _ _ _ (any_inStr_content_append _ _ t)
  case TECHNOLOGY => exact tech_factor_mono _ _ _ _ _ _ _ _ (any_inStr_content_append _ _ t)
  case PROCESS => exact ⟨by split_ifs <;> norm_num, le_refl _⟩
  case ARCHITECTURE => exact ⟨by norm_num, le_refl _⟩
  case GENERAL => exact ⟨by norm_num, le_refl _⟩

/-- The universal factor is nonnegative and can only grow when content is
appended. -/
theorem universalBoostFactor_content_mono (qa : QueryAnalysis) (h : SearchHit)
    (t : List Char) :
    0 ≤ universalBoostFactor qa h ∧
      universalBoostFactor qa h ≤ universalBoostFactor qa { h with content := h.content ++ t } := by
  unfold universalBoostFactor universalBoost
  dsimp only
  rw [titleTermBoost_content]
  have hw := chain2_mono
    (inStr (pys "machine learning") (pyLower qa.original_query) ∧
      inStr (pys "machine learning stack") (pyLower h.section_title))
    (inStr (pyLower qa.original_query) (pyLower h.content))
    (inStr (pyLower qa.original_query) (pyLower (h.content ++ t)))
    (inStr_lower_content_append t)
  exact titleTermBoost_mono qa.key_terms h _ _ hw.1 hw.2

/-- C7: appending any suffix to a hit's content never decreases the final
re-ranking score, for any query analysis (hits carry nonnegative scores: the
base score is a similarity in (0, 1] and every multiplier is positive). -/
theorem c7_rerank_monotone_in_content (qa : QueryAnalysis) (h : SearchHit)
    (t : List Char) (hs : 0 ≤ h.score) :
    rerankHitScore qa h ≤ rerankHitScore qa { h with content := h.content ++ t } := by
  rw [rerankHitScore_eq, rerankHitScore_eq]
  have ht := typeBoostFactor_content_mono qa h t
  have hu := universalBoostFactor_content_mono qa h t
  have hscore : ({ h with content := h.content ++ t } : SearchHit).score = h.score := rfl
  rw [hscore]
  have h1 : h.score * typeBoostFactor qa h ≤
      h.score * typeBoostFactor qa { h with content := h.content ++ t } :=
    mul_le_mul_of_nonneg_left ht.2 hs
  exact mul_le_mul h1 hu.2 hu.1 (mul_nonneg hs (ht.1.trans ht.2))

/-- Witness for C7: appending the technology term " python" at the concrete
TECHNOLOGY query and hit. -/
theorem c7_witness :
    (0 : ℚ) ≤ c4Hit.score ∧
    rerankHitScore (analyze c4Query) c4Hit ≤
      rerankHitScore (analyze c4Query) { c4Hit with content := c4Hit.content ++ pys " python" } :=
  ⟨by norm_num [c4Hit], c7_rerank_monotone_in_content (analyze c4Query) c4Hit (pys " python")
    (by norm_num [c4Hit])⟩

/-! ### C2: aggregation -/

/-- Sorting by descending score is a permutation. -/
theorem sortByScoreDesc_perm (l : List SearchHit) : (sortByScoreDesc l).Perm l :=
  List.mergeSort_perm l _

/-- Sorting by descending score yields a list pairwise sorted by `≥` on scores. -/
theorem sortByScoreDesc_sorted (l : List SearchHit) :
    (sortByScoreDesc l).Pairwise (fun a b => b.score ≤ a.score) := by
  have h := @List.sorted_mergeSort SearchHit
    (fun a b : SearchHit => decide (b.score ≤ a.score))
    (fun a b c hab hbc => by
      rw [decide_eq_true_eq] at *
      exact le_trans hbc hab)
    (fun a b => by
      rcases le_total b.score a.score with hl | hl <;> simp [hl])
    l
  exact h.imp (fun hab => of_decide_eq_true hab)

/-- The keys of `addToGroups` are unchanged when the title is present and get
the new title appended otherwise. -/
theorem addToGroups_keys (groups : List (List Char × List SearchHit)) (h : SearchHit) :
    (addToGroups groups h).map Prod.fst =
      if (groups.any fun g => g.1 = h.document_title) then groups.map Prod.fst
      else groups.map Prod.fst ++ [h.document_title] := by
  unfold addToGroups
  split_ifs with hc
  · rw [List.map_map]
    apply List.map_congr_left
    intro g _
    by_cases hg : g.1 = h.document_title <;> simp [hg]
  · simp

/-- Group members keep their group's title across `addToGroups`. -/
theorem addToGroups_members (groups : List (List Char × List SearchHit)) (h : SearchHit)
    (hmem : ∀ g ∈ groups, ∀ x ∈ g.2, x.document_title = g.1) :
    ∀ g ∈ addToGroups groups h, ∀ x ∈ g.2, x.document_title = g.1 := by
  unfold addToGroups
  split_ifs with hc
  · intro g hg x hx
    rw [List.mem_map] at hg
    obtain ⟨g0, hg0, rfl⟩ := hg
    by_cases he : g0.1 = h.document_title
    · rw [if_pos he] at hx ⊢
      rcases List.mem_append.mp hx with hx | hx
      · exact hmem g0 hg0 x hx
      · rw [List.mem_singleton] at hx
        subst hx
        exact he.symm
    · rw [if_neg he] at hx ⊢
      exact hmem g0 hg0 x hx
  · intro g hg x hx
    rcases List.mem_append.mp hg with hg | hg
    · exact hmem g hg x hx
    · rw [List.mem_singleton] at hg
      subst hg
      rw [List.mem_singleton] at hx
      subst hx
      rfl

/-- `groupByDocument` has pairwise-distinct keys, and every member of a group
carries the group's document title. -/
theorem groupByDocument_invariant (results : List SearchHit) :
    ((groupByDocument results).map Prod.fst).Nodup ∧
    ∀ g ∈ groupByDocument results, ∀ x ∈ g.2, x.document_title = g.1 := by
  have main : ∀ (init : List (List Char × List SearchHit)),
      (init.map Prod.fst).Nodup →
      (∀ g ∈ init, ∀ x ∈ g.2, x.document_title = g.1) →
      ((results.foldl addToGroups init).map Prod.fst).Nodup ∧
      ∀ g ∈ results.foldl addToGroups init, ∀ x ∈ g.2, x.document_title = g.1 := by
    induction results with
    | nil => exact fun init h1 h2 => ⟨h1, h2⟩
    | cons h hs ih =>
        intro init h1 h2
        rw [List.foldl_cons]
        apply ih
        · rw [addToGroups_keys]
          split_ifs with hc
          · exact h1
          · rw [List.nodup_append]
            refine ⟨h1, List.nodup_singleton _, ?_⟩
            intro a ha hb
            rw [List.mem_singleton] at hb
            subst hb
            rw [List.mem_map] at ha
            obtain ⟨g0, hg0, hfst⟩ := ha
            rw [List.any_eq_true] at hc
            push_neg at hc
            exact hc g0 hg0 (decide_eq_true hfst)
        · exact addToGroups_members init h h2
  exact main [] (by simp) (by simp)

/-- Unfolding the accumulating append fold of `_aggregate_results`. -/
theorem aggregate_fold_eq (groups : List (List Char × List SearchHit)) (limit : Nat)
    (acc : List SearchHit) :
    groups.foldl (fun a g => a ++ (sortByScoreDesc g.2).take limit) acc =
      acc ++ groups.flatMap (fun g => (sortByScoreDesc g.2).take limit) := by
  induction groups generalizing acc with
  | nil => simp
  | cons g gs ih => simp [List.foldl_cons, List.flatMap_cons, ih, List.append_assoc]

/-- Members of a capped sorted group chunk come from the group. -/
theorem mem_take_sort (g : List Char × List SearchHit) (limit : Nat) (x : SearchHit)
    (hx : x ∈ (sortByScoreDesc g.2).take limit) : x ∈ g.2 :=
  (sortByScoreDesc_perm g.2).mem_iff.mp ((List.take_sublist _ _).mem hx)

/-- With distinct keys and title-consistent groups, any one document title
contributes at most `limit` hits to the flattened capped chunks. -/
theorem countP_flatMap_le (groups : List (List Char × List SearchHit)) (limit : Nat)
    (t : List Char)
    (hnd : (groups.map Prod.fst).Nodup)
    (hmem : ∀ g ∈ groups, ∀ x ∈ g.2, x.document_title = g.1) :
    (groups.flatMap (fun g => (sortByScoreDesc g.2).take limit)).countP
      (fun x => decide (x.document_title = t)) ≤ limit := by
  induction groups with
  | nil => simp
  | cons g gs ih =>
      rw [List.flatMap_cons, List.countP_append]
      rw [List.map_cons, List.nodup_cons] at hnd
      by_cases hgt : g.1 = t
      · have hzero : (gs.flatMap (fun g => (sortByScoreDesc g.2).take limit)).countP
            (fun x => decide (x.document_title = t)) = 0 := by
          rw [List.countP_eq_zero]
          intro x hx
          rw [List.mem_flatMap] at hx
          obtain ⟨g', hg', hxg⟩ := hx
          have hxt : x.document_title = g'.1 :=
            hmem g' (List.mem_cons_of_mem _ hg') x (mem_take_sort g' limit x hxg)
          have hne : g'.1 ≠ t := by
            intro he
            exact hnd.1 (by rw [hgt, ← he]; exact List.mem_map_of_mem Prod.fst hg')
          simp [hxt, hne]
        rw [hzero, Nat.add_zero]
        calc ((sortByScoreDesc g.2).take limit).countP (fun x => decide (x.document_title = t)) ≤
            ((sortByScoreDesc g.2).take limit).length := List.countP_le_length _
          _ ≤ limit := by
              rw [List.length_take]
              exact min_le_left _ _
      · have hzero : ((sortByScoreDesc g.2).take limit).countP
            (fun x => decide (x.document_title = t)) = 0 := by
          rw [List.countP_eq_zero]
          intro x hx
          have hxt : x.document_title = g.1 :=
            hmem g (List.mem_cons_self _ _) x (mem_take_sort g limit x hx)
          simp [hxt, hgt]
        rw [hzero, Nat.zero_add]
        exact ih hnd.2 (fun g' hg' => hmem g' (List.mem_cons_of_mem _ hg'))

/-- C2: the aggregator returns at most 5 hits; any one document title appears
at most 3 times when exactly one document group exists and at most 2 times
otherwise; and the output is sorted by descending score. -/
theorem c2_aggregate_bounds (results : List SearchHit) :
    (aggregate_results results).length ≤ 5 ∧
    (∀ t : List Char,
      (aggregate_results results).countP (fun x => decide (x.document_title = t)) ≤
        (if (groupByDocument results).length = 1 then 3 else 2)) ∧
    (aggregate_results results).Pairwise (fun a b => b.score ≤ a.score) := by
  refine ⟨?_, ?_, ?_⟩
  · show (List.take 5 _).length ≤ 5
    rw [List.length_take]
    exact min_le_left _ _
  · intro t
    have hinv := groupByDocument_invariant results
    unfold aggregate_results
    dsimp only
    rw [aggregate_fold_eq, List.nil_append]
    refine le_trans ((List.take_sublist _ _).countP_le _) ?_
    rw [(sortByScoreDesc_perm _).countP_eq _]
    exact countP_flatMap_le _ _ t hinv.1 hinv.2
  · exact List.Pairwise.sublist (List.take_sublist _ _) (sortByScoreDesc_sorted _)

/-! ### C1: response message length -/

/-- The suggestion fold of the no-results message only appends, so the message
is at least as long as the template-plus-query base. -/
theorem length_le_suggestion_fold (sugg : List (List Char)) (base : List Char) :
    base.length ≤
      (sugg.foldl (fun m s => m ++ bulletGlyph ++ ' ' :: s ++ ['\n']) base).length := by
  induction sugg generalizing base with
  | nil => exact le_refl _
  | cons x xs ih =>
      rw [List.foldl_cons]
      refine le_trans ?_ (ih _)
      simp [List.length_append]

/-- C1 amended: on the standard hit path (non-empty hit list) the message is
hard-truncated to at most 2000 characters. -/
theorem c1_standard_message_le_2000 (l : List SearchHit) (qa : QueryAnalysis)
    (hl : l ≠ []) :
    (format_response (AggregatedResults.hits l) qa).message.length ≤ 2000 := by
  match l with
  | h :: t =>
      show (List.take 2000 _).length ≤ 2000
      rw [List.length_take]
      exact min_le_left _ _

/-- Witness for C1: the amended bound at a concrete one-hit list. -/
theorem c1_witness :
    ([c4Hit] ≠ ([] : List SearchHit)) ∧
    (format_response (AggregatedResults.hits [c4Hit]) longQueryQA).message.length ≤ 2000 :=
  ⟨by decide, c1_standard_message_le_2000 [c4Hit] longQueryQA (by decide)⟩

/-- C1 counterexample: the no-results path embeds the original query verbatim
in an untruncated template, so a 2100-character query produces a message
longer than 2000 characters. -/
theorem c1_counterexample :
    2000 < (format_response (AggregatedResults.hits []) longQueryQA).message.length := by
  show 2000 < (no_results_response longQueryQA).message.length
  show 2000 < (no_results_message longQueryQA).length
  unfold no_results_message
  refine lt_of_lt_of_le ?_ (length_le_suggestion_fold _ _)
  rw [List.length_append, List.length_append]
  have : longQueryQA.original_query.length = 2100 := by
    show (List.replicate 2100 'a').length = 2100
    rw [List.length_replicate]
  omega

/-! ### C6: clean_text idempotence -/

/-- `toRuns` returns the empty run list only on the empty string. -/
theorem toRuns_eq_nil {l : List Char} (h : toRuns l = []) : l = [] := by
  cases l with
  | nil => rfl
  | cons c rest =>
      exfalso
      rw [toRuns] at h
      rcases htr : toRuns rest with _ | ⟨⟨d, n⟩, rs⟩ <;> rw [htr] at h
      · exact List.cons_ne_nil _ _ h
      · by_cases hc : c = d <;> simp [hc] at h

/-- Rebuilding the runs of a string gives the string back. -/
theorem fromRuns_toRuns (l : List Char) : fromRuns (toRuns l) = l := by
  induction l with
  | nil => rfl
  | cons c rest ih =>
      rw [toRuns]
      rcases htr : toRuns rest with _ | ⟨⟨d, n⟩, rs⟩
      · rw [toRuns_eq_nil htr]
        rfl
      · rw [htr] at ih
        dsimp only
        by_cases hc : c = d
        · subst hc
          rw [if_pos rfl]
          show List.replicate (n + 1) c ++ _ = _
          rw [← ih]
          rfl
        · rw [if_neg hc]
          show List.replicate 1 c ++ _ = _
          rw [show List.replicate 1 c = [c] from rfl, ← ih]
          rfl

/-- The run decomposition is well-formed: positive counts and adjacent runs of
distinct characters. -/
theorem runsWF_toRuns (l : List Char) : runsWF (toRuns l) := by
  induction l with
  | nil => exact ⟨by simp [toRuns], List.chain'_nil⟩
  | cons c rest ih =>
      rw [toRuns]
      rcases htr : toRuns rest with _ | ⟨⟨d, n⟩, rs⟩
      · exact ⟨by simp, List.chain'_singleton _⟩
      · rw [htr] at ih
        dsimp only
        by_cases hc : c = d
        · rw [if_pos hc]
          refine ⟨?_, ?_⟩
          · intro r hr
            rcases List.mem_cons.mp hr with hr | hr
            · subst hr; exact Nat.le_add_left 1 n
            · exact ih.1 r (List.mem_cons_of_mem _ hr)
          · cases rs with
            | nil => exact List.chain'_singleton _
            | cons r' rs' =>
                rw [List.chain'_cons]
                exact ⟨(List.chain'_cons.mp ih.2).1, (List.chain'_cons.mp ih.2).2⟩
        · rw [if_neg hc]
          refine ⟨?_, ?_⟩
          · intro r hr
            rcases List.mem_cons.mp hr with hr | hr
            · subst hr; exact le_refl 1
            · exact ih.1 r hr
          · rw [List.chain'_cons]
            exact ⟨hc, ih.2⟩

/-- Prepending a run of `d` to a string whose leading run is not `d`. -/
theorem toRuns_replicate_append (d : Char) (n : Nat) (l : List Char)
    (hl : ∀ m rs, toRuns l = m :: rs → m.1 ≠ d) :
    toRuns (List.replicate n d ++ l) =
      if n = 0 then toRuns l else (d, n) :: toRuns l := by
  induction n with
  | zero => simp
  | succ n ih =>
      rw [if_neg (Nat.succ_ne_zero n)]
      show toRuns (d :: (List.replicate n d ++ l)) = _
      rw [toRuns, ih]
      by_cases hn : n = 0
      · subst hn
        rw [if_pos rfl]
        rcases htr : toRuns l with _ | ⟨⟨e, m⟩, rs⟩
        · rfl
        · have hne := hl (e, m) rs htr
          dsimp only
          rw [if_neg (fun hc => hne hc.symm)]
      · rw [if_neg hn]
        dsimp only
        rw [if_pos rfl]

/-- Rebuilding a well-formed run list and decomposing it is the identity. -/
theorem toRuns_fromRuns (rs : List (Char × Nat)) (h : runsWF rs) :
    toRuns (fromRuns rs) = rs := by
  induction rs with
  | nil => rfl
  | cons r rs' ih =>
      have hwf' : runsWF rs' := by
        refine ⟨fun x hx => h.1 x (List.mem_cons_of_mem _ hx), ?_⟩
        cases rs' with
        | nil => exact List.chain'_nil
        | cons a b => exact (List.chain'_cons.mp h.2).2
      have hrec := ih hwf'
      show toRuns (List.replicate r.2 r.1 ++ fromRuns rs') = _
      have hl : ∀ m rs0, toRuns (fromRuns rs') = m :: rs0 → m.1 ≠ r.1 := by
        intro m rs0 hm
        rw [hrec] at hm
        cases rs' with
        | nil => exact absurd hm.symm (List.cons_ne_nil m rs0)
        | cons a b =>
            have hchain := (List.chain'_cons.mp h.2).1
            cases hm
            exact fun he => hchain he.symm
      rw [toRuns_replicate_append r.1 r.2 (fromRuns rs') hl]
      have hr2 : ¬ r.2 = 0 := by
        have := h.1 r (List.mem_cons_self _ _)
        omega
      rw [if_neg hr2, hrec, Prod.mk.eta]

/-- Every run character occurs in the string. -/
theorem toRuns_fst_mem {l : List Char} :
    ∀ {r : Char × Nat}, r ∈ toRuns l → r.1 ∈ l := by
  induction l with
  | nil => intro r h; simp [toRuns] at h
  | cons c rest ih =>
      intro r h
      rw [toRuns] at h
      rcases htr : toRuns rest with _ | ⟨⟨d, n⟩, rs⟩ <;> rw [htr] at h
      · rw [List.mem_singleton] at h
        subst h
        exact List.mem_cons_self _ _
      · dsimp only at h
        by_cases hc : c = d
        · rw [if_pos hc] at h
          rcases List.mem_cons.mp h with h | h
          · subst h
            have hd : ((d, n) : Char × Nat).1 ∈ rest :=
              ih (by rw [htr]; exact List.mem_cons_self _ _)
            exact List.mem_cons_of_mem _ hd
          · exact List.mem_cons_of_mem _ (ih (by rw [htr]; exact List.mem_cons_of_mem _ h))
        · rw [if_neg hc] at h
          rcases List.mem_cons.mp h with h | h
          · subst h
            exact List.mem_cons_self _ _
          · exact List.mem_cons_of_mem _ (ih (by rw [htr]; exact h))

/-- Decomposing the rebuild of a pointwise-mapped run list, for maps that
preserve characters and positivity. -/
theorem toRuns_map_fromRuns (f : Char × Nat → Char × Nat)
    (hfst : ∀ r, (f r).1 = r.1) (hpos : ∀ r, 1 ≤ r.2 → 1 ≤ (f r).2) (l : List Char) :
    toRuns (fromRuns ((toRuns l).map f)) = (toRuns l).map f := by
  apply toRuns_fromRuns
  have hwf := runsWF_toRuns l
  refine ⟨?_, ?_⟩
  · intro r hr
    rw [List.mem_map] at hr
    obtain ⟨r0, hr0, rfl⟩ := hr
    exact hpos r0 (hwf.1 r0 hr0)
  · rw [List.chain'_map]
    exact hwf.2.imp (fun a b hab => by rw [hfst, hfst]; exact hab)

/-- Characters of a rebuilt run list come from the run characters. -/
theorem mem_fromRuns {c : Char} {rs : List (Char × Nat)} (h : c ∈ fromRuns rs) :
    ∃ r ∈ rs, c = r.1 := by
  rw [fromRuns, List.mem_flatMap] at h
  obtain ⟨r, hr, hc⟩ := h
  rw [List.mem_replicate] at hc
  exact ⟨r, hr, hc.2⟩

/-- A run of the decomposition appears as a contiguous replicate block of the
string. -/
theorem replicate_ifx_of_run {r : Char × Nat} {s : List Char} (h : r ∈ toRuns s) :
    List.replicate r.2 r.1 <:+: s := by
  obtain ⟨l₁, l₂, hdec⟩ := List.append_of_mem h
  refine ⟨fromRuns l₁, fromRuns l₂, ?_⟩
  have hsplit : fromRuns (l₁ ++ r :: l₂) =
      fromRuns l₁ ++ (List.replicate r.2 r.1 ++ fromRuns l₂) := by
    rw [fromRuns, List.flatMap_append, List.flatMap_cons]
    rfl
  rw [← fromRuns_toRuns s, hdec, hsplit, ← List.append_assoc]

/-- The first run of a non-empty string carries its head character. -/
theorem toRuns_cons_head (c : Char) (rest : List Char) :
    ∃ n rs, toRuns (c :: rest) = (c, n) :: rs ∧ 1 ≤ n := by
  rw [toRuns]
  rcases htr : toRuns rest with _ | ⟨⟨d, m⟩, rs⟩
  · exact ⟨1, [], rfl, le_refl 1⟩
  · dsimp only
    by_cases hc : c = d
    · subst hc
      rw [if_pos rfl]
      exact ⟨m + 1, rs, rfl, Nat.le_add_left 1 m⟩
    · rw [if_neg hc]
      exact ⟨1, (d, m) :: rs, rfl, le_refl 1⟩

/-- A replicate block at the front of a string forces a first run at least that
long. -/
theorem head_run_ge_of_replicate_pfx {c : Char} :
    ∀ (k : Nat) (t : List Char), 1 ≤ k → List.replicate k c <+: t →
      ∃ n rs, toRuns t = (c, n) :: rs ∧ k ≤ n := by
  intro k
  induction k with
  | zero => intro t h; omega
  | succ k ih =>
      intro t _ hp
      obtain ⟨u, hu⟩ := hp
      rw [List.replicate_succ, List.cons_append] at hu
      subst hu
      by_cases hk : k = 0
      · subst hk
        simp only [List.replicate_zero, List.nil_append]
        exact toRuns_cons_head c u
      · obtain ⟨n, rs, htr, hn⟩ :=
          ih (List.replicate k c ++ u) (Nat.one_le_iff_ne_zero.mpr hk) ⟨u, rfl⟩
      
        rw [toRuns, htr]
        dsimp only
        rw [if_pos rfl]
        exact ⟨n + 1, rs, rfl, by omega⟩

/-- Every run of a string is dominated by a run with the same character after
prepending one character. -/
theorem run_dominate (a : Char) {r : Char × Nat} {rest : List Char}
    (hr : r ∈ toRuns rest) :
    ∃ r2 ∈ toRuns (a :: rest), r2.1 = r.1 ∧ r.2 ≤ r2.2 := by
  rw [toRuns]
  rcases htr : toRuns rest with _ | ⟨⟨d, m⟩, rs⟩
  · rw [htr] at hr
    simp at hr
  · rw [htr] at hr
    dsimp only
    by_cases hc : a = d
    · rw [if_pos hc]
      rcases List.mem_cons.mp hr with hhd | htl
      · subst hhd
        exact ⟨(d, m + 1), List.mem_cons_self _ _, rfl, Nat.le_succ m⟩
      · exact ⟨r, List.mem_cons_of_mem _ htl, rfl, le_refl _⟩
    · rw [if_neg hc]
      exact ⟨r, List.mem_cons_of_mem _ hr, rfl, le_refl _⟩

/-- A replicate block inside a string forces a run at least that long. -/
theorem run_ge_of_replicate_ifx {c : Char} {k : Nat} (hk : 1 ≤ k) :
    ∀ t : List Char, List.replicate k c <:+: t →
      ∃ r ∈ toRuns t, r.1 = c ∧ k ≤ r.2 := by
  intro t
  induction t with
  | nil =>
      intro h
      obtain ⟨pre, suf, heq⟩ := h
      exfalso
      have hlen := congrArg List.length heq
      simp only [List.length_append, List.length_replicate, List.length_nil] at hlen
      omega
  | cons a rest ih =>
      intro h
      obtain ⟨pre, suf, heq⟩ := h
      cases pre with
      | nil =>
          rw [List.nil_append] at heq
          obtain ⟨n, rs, htr, hn⟩ :=
            head_run_ge_of_replicate_pfx k (a :: rest) hk ⟨suf, heq⟩
          exact ⟨(c, n), by rw [htr]; exact List.mem_cons_self _ _, rfl, hn⟩
      | cons b pre2 =>
          rw [List.cons_append, List.cons_append] at heq
          injection heq with hb hrest
          obtain ⟨r, hr, hrc, hrk⟩ := ih ⟨pre2, suf, hrest⟩
          obtain ⟨r2, hr2, hfst, hle⟩ := run_dominate a hr
          exact ⟨r2, hr2, by rw [hfst, hrc], le_trans hrk hle⟩

/-- Run bounds transfer to substrings. -/
theorem runsBelow_of_ifx {c : Char} {k : Nat} (hk : 1 ≤ k) {s t : List Char}
    (hst : s <:+: t) (ht : runsBelow c k t) : runsBelow c k s := by
  intro r hr hrc
  by_contra hlt
  push_neg at hlt
  have hrep : List.replicate k c <:+: s := by
    have h2 : List.replicate r.2 c <:+: s := by
      have := replicate_ifx_of_run hr
      rwa [hrc] at this
    have h1 : List.replicate k c <:+: List.replicate r.2 c :=
      ⟨[], List.replicate (r.2 - k) c, by
        rw [List.nil_append, ← List.replicate_add]
        congr 1
        omega⟩
    exact h1.trans h2
  obtain ⟨r2, hr2, hc2, hk2⟩ := run_ge_of_replicate_ifx hk t (hrep.trans hst)
  exact absurd (ht r2 hr2 hc2) (by omega)

/-- Run decomposition of `subNewlines3`: the pointwise run map. -/
theorem toRuns_subNewlines3 (s : List Char) :
    toRuns (subNewlines3 s) =
      (toRuns s).map (fun r => if r.1 = '\n' ∧ 3 ≤ r.2 then ('\n', 2) else r) := by
  apply toRuns_map_fromRuns
  · intro r0
    by_cases hc : r0.1 = '\n' ∧ 3 ≤ r0.2
    · rw [if_pos hc]
      dsimp only
      exact hc.1.symm
    · rw [if_neg hc]
  · intro r0 h1
    by_cases hc : r0.1 = '\n' ∧ 3 ≤ r0.2
    · rw [if_pos hc]
      dsimp only
      omega
    · rw [if_neg hc]
      exact h1

/-- Run decomposition of `subSpaces2`: the pointwise run map. -/
theorem toRuns_subSpaces2 (s : List Char) :
    toRuns (subSpaces2 s) =
      (toRuns s).map (fun r => if r.1 = ' ' ∧ 2 ≤ r.2 then (' ', 1) else r) := by
  apply toRuns_map_fromRuns
  · intro r0
    by_cases hc : r0.1 = ' ' ∧ 2 ≤ r0.2
    · rw [if_pos hc]
      dsimp only
      exact hc.1.symm
    · rw [if_neg hc]
  · intro r0 h1
    by_cases hc : r0.1 = ' ' ∧ 2 ≤ r0.2
    · rw [if_pos hc]
    · rw [if_neg hc]
      exact h1

/-- `subNewlines3` is the identity on strings whose newline runs are short. -/
theorem subNewlines3_of_runsBelow {s : List Char} (h : runsBelow '\n' 3 s) :
    subNewlines3 s = s := by
  rw [subNewlines3]
  have hmap : (toRuns s).map (fun r => if r.1 = '\n' ∧ 3 ≤ r.2 then ('\n', 2) else r)
      = (toRuns s).map id := by
    apply List.map_congr_left
    intro r hr
    by_cases hc : r.1 = '\n'
    · rw [if_neg (fun hcon : r.1 = '\n' ∧ 3 ≤ r.2 => absurd (h r hr hc) (not_lt.mpr hcon.2))]
      rfl
    · rw [if_neg (fun hcon => hc hcon.1)]
      rfl
  rw [hmap, List.map_id, fromRuns_toRuns]

/-- `subSpaces2` is the identity on strings whose space runs are short. -/
theorem subSpaces2_of_runsBelow {s : List Char} (h : runsBelow ' ' 2 s) :
    subSpaces2 s = s := by
  rw [subSpaces2]
  have hmap : (toRuns s).map (fun r => if r.1 = ' ' ∧ 2 ≤ r.2 then (' ', 1) else r)
      = (toRuns s).map id := by
    apply List.map_congr_left
    intro r hr
    by_cases hc : r.1 = ' '
    · rw [if_neg (fun hcon : r.1 = ' ' ∧ 2 ≤ r.2 => absurd (h r hr hc) (not_lt.mpr hcon.2))]
      rfl
    · rw [if_neg (fun hcon => hc hcon.1)]
      rfl
  rw [hmap, List.map_id, fromRuns_toRuns]

/-- `subStars3` is the identity on strings without asterisks. -/
theorem subStars3_of_not_mem {s : List Char} (h : '*' ∉ s) : subStars3 s = s := by
  rw [subStars3]
  have hmap : (toRuns s).map (fun r => if r.1 = '*' ∧ 3 ≤ r.2 then ('*', 0) else r)
      = (toRuns s).map id := by
    apply List.map_congr_left
    intro r hr
    rw [if_neg (fun hcon : r.1 = '*' ∧ 3 ≤ r.2 => h (hcon.1 ▸ toRuns_fst_mem hr))]
    rfl
  rw [hmap, List.map_id, fromRuns_toRuns]

/-- After `subNewlines3` every newline run is short. -/
theorem runsBelow_subNewlines3 (s : List Char) : runsBelow '\n' 3 (subNewlines3 s) := by
  intro r hr hrc
  rw [toRuns_subNewlines3, List.mem_map] at hr
  obtain ⟨r0, hr0, rfl⟩ := hr
  by_cases hc : r0.1 = '\n' ∧ 3 ≤ r0.2
  · rw [if_pos hc]
    dsimp only
    omega
  · rw [if_neg hc] at hrc ⊢
    by_cases h2 : 3 ≤ r0.2
    · exact absurd ⟨hrc, h2⟩ hc
    · omega

/-- After `subSpaces2` every space run is short. -/
theorem runsBelow_subSpaces2_self (s : List Char) : runsBelow ' ' 2 (subSpaces2 s) := by
  intro r hr hrc
  rw [toRuns_subSpaces2, List.mem_map] at hr
  obtain ⟨r0, hr0, rfl⟩ := hr
  by_cases hc : r0.1 = ' ' ∧ 2 ≤ r0.2
  · rw [if_pos hc]
    dsimp only
    omega
  · rw [if_neg hc] at hrc ⊢
    by_cases h2 : 2 ≤ r0.2
    · exact absurd ⟨hrc, h2⟩ hc
    · omega

/-- `subSpaces2` preserves run bounds on every character other than the space. -/
theorem runsBelow_subSpaces2_preserve {c : Char} {k : Nat} (hc : c ≠ ' ')
    {s : List Char} (h : runsBelow c k s) : runsBelow c k (subSpaces2 s) := by
  intro r hr hrc
  rw [toRuns_subSpaces2, List.mem_map] at hr
  obtain ⟨r0, hr0, rfl⟩ := hr
  by_cases hcond : r0.1 = ' ' ∧ 2 ≤ r0.2
  · rw [if_pos hcond] at hrc
    exact absurd hrc.symm hc
  · rw [if_neg hcond] at hrc ⊢
    exact h r0 hr0 hrc

/-- `subNewlines3` introduces no new characters. -/
theorem mem_subNewlines3 {c : Char} {s : List Char} (h : c ∈ subNewlines3 s) :
    c ∈ s := by
  rw [subNewlines3] at h
  obtain ⟨r, hr, hcr⟩ := mem_fromRuns h
  rw [List.mem_map] at hr
  obtain ⟨r0, hr0, rfl⟩ := hr
  by_cases hcond : r0.1 = '\n' ∧ 3 ≤ r0.2
  · rw [if_pos hcond] at hcr
    subst hcr
    show '\n' ∈ s
    have hm : r0.1 ∈ s := toRuns_fst_mem hr0
    rwa [hcond.1] at hm
  · rw [if_neg hcond] at hcr
    subst hcr
    exact toRuns_fst_mem hr0

/-- `subSpaces2` introduces no new characters. -/
theorem mem_subSpaces2 {c : Char} {s : List Char} (h : c ∈ subSpaces2 s) :
    c ∈ s := by
  rw [subSpaces2] at h
  obtain ⟨r, hr, hcr⟩ := mem_fromRuns h
  rw [List.mem_map] at hr
  obtain ⟨r0, hr0, rfl⟩ := hr
  by_cases hcond : r0.1 = ' ' ∧ 2 ≤ r0.2
  · rw [if_pos hcond] at hcr
    subst hcr
    show ' ' ∈ s
    have hm : r0.1 ∈ s := toRuns_fst_mem hr0
    rwa [hcond.1] at hm
  · rw [if_neg hcond] at hcr
    subst hcr
    exact toRuns_fst_mem hr0

/-- `List.dropWhile` only shortens a list. -/
theorem dropWhile_len (p : Char → Bool) (l : List Char) :
    (l.dropWhile p).length ≤ l.length := by
  induction l with
  | nil => simp
  | cons c rest ih =>
      rw [List.dropWhile_cons]
      by_cases h : p c = true
      · rw [if_pos h]
        exact ih.trans (Nat.le_succ _)
      · rw [if_neg h]

/-- `List.dropWhile` is idempotent. -/
theorem dropWhile_dropWhile (p : Char → Bool) (l : List Char) :
    (l.dropWhile p).dropWhile p = l.dropWhile p := by
  induction l with
  | nil => rfl
  | cons c rest ih =>
      rw [List.dropWhile_cons]
      by_cases hpc : p c = true
      · rw [if_pos hpc]
        exact ih
      · rw [if_neg hpc, List.dropWhile_cons, if_neg hpc]

/-- A list fixed by `dropWhile` stays fixed on initial segments. -/
theorem dropWhile_eq_self_of_pfx {p : Char → Bool} {x l : List Char}
    (hx : x <+: l) (hl : l.dropWhile p = l) : x.dropWhile p = x := by
  cases x with
  | nil => rfl
  | cons c x2 =>
      cases l with
      | nil => exact absurd hx (by simp)
      | cons d l2 =>
          obtain ⟨t, ht⟩ := hx
          rw [List.cons_append] at ht
          injection ht with hc hrest
          have hpd : p d = false := by
            rcases hb : p d with _ | _
            · rfl
            · exfalso
              rw [List.dropWhile_cons, if_pos hb] at hl
              have h1 := congrArg List.length hl
              have h2 := dropWhile_len p l2
              simp only [List.length_cons] at h1
              omega
          subst hc
          rw [List.dropWhile_cons, if_neg (by simp [hpd])]

/-- Reversal turns suffixes into initial segments. -/
theorem rev_pfx_of_sfx {l₁ l₂ : List Char} (h : l₁ <:+ l₂) :
    l₁.reverse <+: l₂.reverse := by
  obtain ⟨t, ht⟩ := h
  exact ⟨t.reverse, by rw [← ht, List.reverse_append]⟩

/-- Initial segments are substrings. -/
theorem ifx_of_pfx {x y : List Char} (h : x <+: y) : x <:+: y := by
  obtain ⟨t, ht⟩ := h
  exact ⟨[], t, by rw [List.nil_append, ht]⟩

/-- Suffixes are substrings. -/
theorem ifx_of_sfx {x y : List Char} (h : x <:+ y) : x <:+: y := by
  obtain ⟨t, ht⟩ := h
  exact ⟨t, [], by rw [List.append_nil, ht]⟩

/-- `pyStrip` returns a substring of its input. -/
theorem pyStrip_ifx (s : List Char) : pyStrip s <:+: s := by
  rw [pyStrip]
  have h1 : s.dropWhile isPySpace <:+ s := List.dropWhile_suffix _
  have h2 : (s.dropWhile isPySpace).reverse.dropWhile isPySpace <:+
      (s.dropWhile isPySpace).reverse := List.dropWhile_suffix _
  have h3 := rev_pfx_of_sfx h2
  rw [List.reverse_reverse] at h3
  exact (ifx_of_pfx h3).trans (ifx_of_sfx h1)

/-- `pyStrip` is idempotent. -/
theorem pyStrip_idem (s : List Char) : pyStrip (pyStrip s) = pyStrip s := by
  rw [pyStrip, pyStrip]
  set u := s.dropWhile isPySpace with hu
  set v := u.reverse.dropWhile isPySpace with hv
  have huu : u.dropWhile isPySpace = u := by
    rw [hu]
    exact dropWhile_dropWhile _ _
  have hvp : v.reverse <+: u := by
    have h4 := rev_pfx_of_sfx (List.dropWhile_suffix (l := u.reverse) isPySpace)
    rwa [List.reverse_reverse] at h4
  have h1 : v.reverse.dropWhile isPySpace = v.reverse :=
    dropWhile_eq_self_of_pfx hvp huu
  rw [h1, List.reverse_reverse, hv, dropWhile_dropWhile]

/-- `pyStrip` introduces no new characters. -/
theorem mem_pyStrip {c : Char} {s : List Char} (h : c ∈ pyStrip s) : c ∈ s :=
  (pyStrip_ifx s).sublist.subset h

/-- `pyStrip` preserves run bounds. -/
theorem runsBelow_pyStrip {c : Char} {k : Nat} (hk : 1 ≤ k) {s : List Char}
    (h : runsBelow c k s) : runsBelow c k (pyStrip s) :=
  runsBelow_of_ifx hk (pyStrip_ifx s) h

/-- The header scanner is the identity on hash-free text, from either
line-start or mid-line state. -/
theorem subHeadersGo_of_not_mem :
    ∀ s : List Char, '#' ∉ s →
      subHeadersGo .lineStart s = s ∧ subHeadersGo .mid s = s := by
  intro s
  induction s with
  | nil => intro h; exact ⟨rfl, rfl⟩
  | cons c rest ih =>
      intro h
      have hc : c ≠ '#' := fun he => h (he ▸ List.mem_cons_self _ _)
      have hrest : '#' ∉ rest := fun hm => h (List.mem_cons_of_mem _ hm)
      obtain ⟨ih1, ih2⟩ := ih hrest
      constructor
      · rw [subHeadersGo, if_neg hc]
        by_cases hn : c = '\n'
        · rw [if_pos hn, ih1]
        · rw [if_neg hn, ih2]
      · rw [subHeadersGo]
        by_cases hn : c = '\n'
        · rw [if_pos hn, ih1]
        · rw [if_neg hn, ih2]

/-- The bullet scanner is the identity on text without `-` or `*`, from either
line-start or mid-line state. -/
theorem subBulletsGo_of_not_mem :
    ∀ s : List Char, '-' ∉ s → '*' ∉ s →
      subBulletsGo .lineStart s = s ∧ subBulletsGo .mid s = s := by
  intro s
  induction s with
  | nil => intro h1 h2; exact ⟨rfl, rfl⟩
  | cons c rest ih =>
      intro h1 h2
      have hc : ¬(c = '-' ∨ c = '*') := by
        rintro (he | he)
        · exact h1 (he ▸ List.mem_cons_self _ _)
        · exact h2 (he ▸ List.mem_cons_self _ _)
      have hr1 : '-' ∉ rest := fun hm => h1 (List.mem_cons_of_mem _ hm)
      have hr2 : '*' ∉ rest := fun hm => h2 (List.mem_cons_of_mem _ hm)
      obtain ⟨ih1, ih2⟩ := ih hr1 hr2
      constructor
      · rw [subBulletsGo, if_neg hc]
        by_cases hn : c = '\n'
        · rw [if_pos hn, ih1]
        · rw [if_neg hn, ih2]
      · rw [subBulletsGo]
        by_cases hn : c = '\n'
        · rw [if_pos hn, ih1]
        · rw [if_neg hn, ih2]

/-- `strReplaceGo` is the identity when the head of the pattern never occurs. -/
theorem strReplaceGo_of_not_mem {p₀ : Char} {pat rep : List Char} :
    ∀ (fuel : Nat) (s : List Char), p₀ ∉ s →
      strReplaceGo (p₀ :: pat) rep fuel s = s := by
  intro fuel
  induction fuel with
  | zero =>
      intro s h
      cases s with
      | nil => rfl
      | cons c rest => rfl
  | succ fuel ih =>
      intro s h
      cases s with
      | nil => rfl
      | cons c rest =>
          rw [strReplaceGo, if_neg]
          · rw [ih rest (fun hm => h (List.mem_cons_of_mem _ hm))]
          · intro hcon
            have h2 : (p₀ == c && pat.isPrefixOf rest) = true := hcon.2
            rw [Bool.and_eq_true] at h2
            have h3 : p₀ = c := eq_of_beq h2.1
            exact h (by rw [h3]; exact List.mem_cons_self c rest)

/-- Stripping markdown headers is the identity on hash-free text. -/
theorem subHeaders_of_not_mem {s : List Char} (h : '#' ∉ s) : subHeaders s = s :=
  (subHeadersGo_of_not_mem s h).1

/-- Normalising bullets is the identity on text without `-` or `*`. -/
theorem subBullets_of_not_mem {s : List Char} (h1 : '-' ∉ s) (h2 : '*' ∉ s) :
    subBullets s = s :=
  (subBulletsGo_of_not_mem s h1 h2).1

/-- `str.replace` is the identity when the head of the pattern never occurs. -/
theorem strReplace_of_not_mem {p₀ : Char} {s : List Char} (hp : p₀ ∉ s)
    (pat rep : List Char) : strReplace s (p₀ :: pat) rep = s :=
  strReplaceGo_of_not_mem _ _ hp

/-- On input free of `#`, `*`, `-` and the backslash, `clean_text` reduces to
whitespace normalisation: collapse long newline and space runs, then strip. -/
theorem clean_text_of_no_markers {s : List Char}
    (h1 : '#' ∉ s) (h2 : '*' ∉ s) (h3 : '-' ∉ s) (h4 : '\\' ∉ s) :
    clean_text s = pyStrip (subSpaces2 (subNewlines3 s)) := by
  show pyStrip (subSpaces2 (subNewlines3 (strReplace (strReplace (strReplace
      (subBullets (subStars3 (subHeaders s))) (pys "\\n") (pys "\n"))
      (pys "\\t") (pys " ")) (pys "\\") []))) = _
  rw [subHeaders_of_not_mem h1, subStars3_of_not_mem h2, subBullets_of_not_mem h3 h2,
    show (pys "\\n") = '\\' :: pys "n" from rfl, strReplace_of_not_mem h4,
    show (pys "\\t") = '\\' :: pys "t" from rfl, strReplace_of_not_mem h4,
    show (pys "\\") = '\\' :: ([] : List Char) from rfl, strReplace_of_not_mem h4]

/-- `clean_text` is idempotent on marker-free input: its output there is
strip-normalised with short newline and space runs, on which every stage of a
second pass acts as the identity. -/
theorem clean_text_no_markers_fixed {s : List Char}
    (h1 : '#' ∉ s) (h2 : '*' ∉ s) (h3 : '-' ∉ s) (h4 : '\\' ∉ s) :
    clean_text (clean_text s) = clean_text s := by
  have hct := clean_text_of_no_markers h1 h2 h3 h4
  set t := pyStrip (subSpaces2 (subNewlines3 s)) with ht
  have hmem : ∀ c : Char, c ∈ t → c ∈ s := fun c hc =>
    mem_subNewlines3 (mem_subSpaces2 (mem_pyStrip hc))
  have h1t : '#' ∉ t := fun hc => h1 (hmem _ hc)
  have h2t : '*' ∉ t := fun hc => h2 (hmem _ hc)
  have h3t : '-' ∉ t := fun hc => h3 (hmem _ hc)
  have h4t : '\\' ∉ t := fun hc => h4 (hmem _ hc)
  have hct2 := clean_text_of_no_markers h1t h2t h3t h4t
  rw [hct, hct2]
  have hnl : runsBelow '\n' 3 t :=
    runsBelow_pyStrip (by omega)
      (runsBelow_subSpaces2_preserve (by decide) (runsBelow_subNewlines3 s))
  have hsp : runsBelow ' ' 2 t :=
    runsBelow_pyStrip (by omega) (runsBelow_subSpaces2_self (subNewlines3 s))
  rw [subNewlines3_of_runsBelow hnl, subSpaces2_of_runsBelow hsp, ht, pyStrip_idem]

/-- C6 (amended): `clean_text` is idempotent on every string that contains none
of the marker characters `#`, `*`, `-` and the backslash; on such input both
passes reduce to whitespace normalisation and stripping, and the first pass
already leaves every newline run below three, every space run below two, and no
leading or trailing whitespace. -/
theorem c6_amended_no_marker_idempotence (s : List Char)
    (h1 : '#' ∉ s) (h2 : '*' ∉ s) (h3 : '-' ∉ s) (h4 : '\\' ∉ s) :
    clean_text (clean_text s) = clean_text s :=
  clean_text_no_markers_fixed h1 h2 h3 h4

/-- C6 counterexample: `clean_text` is not idempotent in general.  On
`"## # a"` the first pass strips the outer header marker but re-exposes an
inner one (`"# a"`), which the second pass strips again. -/
theorem c6_counterexample :
    clean_text (clean_text (pys "## # a")) ≠ clean_text (pys "## # a") := by
  decide

/-- C6 witness: the amended idempotence applies to the concrete marker-free
string `"a  b"` followed by four newlines and `"c"`. -/
theorem c6_witness :
    '#' ∉ pys "a  b\n\n\n\nc" ∧ '*' ∉ pys "a  b\n\n\n\nc" ∧
      '-' ∉ pys "a  b\n\n\n\nc" ∧ '\\' ∉ pys "a  b\n\n\n\nc" ∧
      clean_text (clean_text (pys "a  b\n\n\n\nc")) = clean_text (pys "a  b\n\n\n\nc") :=
  ⟨by decide, by decide, by decide, by decide,
    c6_amended_no_marker_idempotence _ (by decide) (by decide) (by decide) (by decide)⟩

end Chatbot

